import Mathlib

/-!
# Verification of `createContactsFromCSV`
  (apps/web/modules/ee/contacts/lib/contacts.ts)

Shallow embedding of the bulk contact import/reconciliation pipeline.
The Prisma-backed store is modelled as an explicit in-memory relational
state (`Store`): contacts carry attribute rows `(attributeKeyId, value)`,
attribute-key definitions are rows `(id, key, name, environmentId)`, and
fresh ids come from counters.  CSV rows (`Record<string, string>` in the
source) are association lists with string keys and values; JS `Map`s are
association lists where `set` overwrites in place.  The per-record
`Promise.all` phase is sequentialised left-to-right (the spec notes the
order across records is immaterial); store round-trips become pure state
passing, and thrown `ValidationError`s become an `Except` error result
paired with the (unmodified) store.
-/

namespace Fb

/-- One CSV row: a flat string-map (JS object), keys distinct. -/
abbrev CSVRecord := List (String × String)

/-- `ContactAttributeKey` row: `{ id, key, name, environmentId }`. -/
structure AttrKey where
  id : Nat
  key : String
  name : String
  environmentId : String
deriving DecidableEq, Repr

/-- `Contact` row together with its `ContactAttribute` rows
`(attributeKeyId, value)` (the unique constraint is on
`(contactId, attributeKeyId)`). -/
structure Contact where
  id : Nat
  environmentId : String
  attributes : List (Nat × String)
deriving DecidableEq, Repr

/-- The relational store reachable from the importer, with counters
supplying fresh primary keys. -/
structure Store where
  contacts : List Contact
  attributeKeys : List AttrKey
  nextContactId : Nat
  nextAttributeKeyId : Nat
deriving DecidableEq, Repr

/-- `duplicateContactsAction`: `"skip" | "update" | "overwrite"`. -/
inductive DupAction where
  | skip
  | update
  | overwrite
deriving DecidableEq, Repr

/-- Errors surfaced by the importer in the pure model (`ValidationError`
in the source; store-level `DatabaseError`s have no counterpart in a
total in-memory store). -/
inductive ImportError where
  | validation (msg : String)
deriving DecidableEq, Repr

/-- JS property access `record.email` etc., with `undefined` read as the
falsy `""` (the source only ever tests truthiness and `filter(Boolean)`,
which identify `undefined` and `""`). -/
def fieldOf (r : CSVRecord) (k : String) : String :=
  (r.lookup k).getD ""

def emailOf (r : CSVRecord) : String := fieldOf r "email"

def userIdOf (r : CSVRecord) : String := fieldOf r "userId"

/-- `Array.from(new Set(l))`: distinct elements, first occurrence kept. -/
def uniq (l : List String) : List String :=
  l.foldl (fun acc x => if x ∈ acc then acc else acc ++ [x]) []

/-- `Map.get` on an association-list map. -/
def mapGet {α : Type} (m : List (String × α)) (k : String) : Option α :=
  m.lookup k

/-- `Map.set`: overwrite in place when the key is present, append
otherwise (JS `Map` keeps insertion order). -/
def mapSet {α : Type} (m : List (String × α)) (k : String) (v : α) : List (String × α) :=
  if (m.map Prod.fst).contains k then
    m.map (fun p => if p.1 = k then (k, v) else p)
  else
    m ++ [(k, v)]

/-- `csvData.map((r) => r.email).filter(Boolean)`, deduplicated. -/
def csvEmailsOf (csvData : List CSVRecord) : List String :=
  uniq ((csvData.map emailOf).filter (fun e => e ≠ ""))

/-- `csvData.map((r) => r.userId).filter(Boolean)`, deduplicated. -/
def csvUserIdsOf (csvData : List CSVRecord) : List String :=
  uniq ((csvData.map userIdOf).filter (fun u => u ≠ ""))

/-- The set of column names appearing in any record (the source's
`csvKeys`, built by scanning every record of the batch). -/
def csvKeysOf (csvData : List CSVRecord) : List String :=
  uniq (csvData.flatMap (fun r => r.map Prod.fst))

/-- Resolve an `attributeKeyId` to its `ContactAttributeKey` row. -/
def keyById (ks : List AttrKey) (kid : Nat) : Option AttrKey :=
  ks.find? (fun k => k.id == kid)

/-- The join `attributeKey.key = name` on an attribute row (no
environment condition: the Prisma filter joins on the key row alone). -/
def attrKeyNameIs (ks : List AttrKey) (name : String) (a : Nat × String) : Bool :=
  match keyById ks a.1 with
  | some k => k.key == name
  | none => false

/-- The join `attributeKey.key = name AND attributeKey.environmentId =
env` on an attribute row. -/
def attrResolves (ks : List AttrKey) (env name : String) (a : Nat × String) : Bool :=
  match keyById ks a.1 with
  | some k => k.key == name && k.environmentId == env
  | none => false

/-- `prisma.contact.findMany` of step 2: contacts of the environment
having some attribute whose key row is named `"email"` and whose value
is in the extracted email set. -/
def existingContactsByEmail (s : Store) (environmentId : String) (csvEmails : List String) :
    List Contact :=
  s.contacts.filter (fun c =>
    c.environmentId == environmentId &&
      c.attributes.any (fun a => attrKeyNameIs s.attributeKeys "email" a && csvEmails.contains a.2))

/-- `emailToContactMap`: for each fetched contact, its first attribute
whose key is named `"email"` maps that email value to the contact
snapshot (`Map.set`, later contacts overwrite earlier ones). -/
def buildEmailMap (ks : List AttrKey) (contacts : List Contact) : List (String × Contact) :=
  contacts.foldl
    (fun m c =>
      match c.attributes.find? (attrKeyNameIs ks "email") with
      | some a => mapSet m a.2 c
      | none => m)
    []

/-- `prisma.contactAttribute.findMany` of step 3: values of attribute
rows (across all contacts) whose key row is named `"userId"` in this
environment and whose value is in the incoming userId set. -/
def userIdCollisions (s : Store) (environmentId : String) (csvUserIds : List String) :
    List String :=
  ((s.contacts.flatMap Contact.attributes).filter
      (fun a => attrResolves s.attributeKeys environmentId "userId" a &&
        csvUserIds.contains a.2)).map Prod.snd

/-- Attribute-key rows of the environment. -/
def envAttributeKeys (s : Store) (environmentId : String) : List AttrKey :=
  s.attributeKeys.filter (fun k => k.environmentId == environmentId)

/-- Fold key rows into a `key -> id` map (`attributeKeyMap.set`). -/
def buildKeyMap (ks : List AttrKey) (init : List (String × Nat)) : List (String × Nat) :=
  ks.foldl (fun m k => mapSet m k.key k.id) init

/-- `prisma.contactAttributeKey.createMany({..., skipDuplicates: true})`:
append a fresh key row per missing name unless a row with the same
`(environmentId, key)` already exists. -/
def createMissingKeys (s : Store) (environmentId : String) (missing : List String) : Store :=
  missing.foldl
    (fun st k =>
      if st.attributeKeys.any (fun ak => ak.key == k && ak.environmentId == environmentId) then st
      else
        { st with
          attributeKeys := st.attributeKeys ++ [⟨st.nextAttributeKeyId, k, k, environmentId⟩],
          nextAttributeKeyId := st.nextAttributeKeyId + 1 })
    s

/-- Look a contact up by primary key. -/
def contactById (s : Store) (i : Nat) : Option Contact :=
  s.contacts.find? (fun c => c.id == i)

/-- `prisma.contact.update({ where: { id }, ... })`: replace the row with
the matching id. -/
def replaceContact (s : Store) (c' : Contact) : Store :=
  { s with contacts := s.contacts.map (fun c => if c.id == c'.id then c' else c) }

/-- One Prisma nested `upsert` on `(contactId, attributeKeyId)`: update
the value when the pair exists, create the row otherwise. -/
def upsertOne (attrs : List (Nat × String)) (e : Nat × String) : List (Nat × String) :=
  if attrs.any (fun a => a.1 == e.1) then
    attrs.map (fun a => if a.1 == e.1 then (e.1, e.2) else a)
  else
    attrs ++ [e]

/-- The `attributes.upsert` list of the `update` branch, applied in
record-column order. -/
def upsertAttrs (attrs : List (Nat × String)) (entries : List (Nat × String)) :
    List (Nat × String) :=
  entries.foldl upsertOne attrs

/-- `Object.entries(record)` mapped through `attributeKeyMap.get(key)`
(after reconciliation every record column is present in the map; the
`getD 0` default is never reached then). -/
def recordEntries (attributeKeyMap : List (String × Nat)) (r : CSVRecord) :
    List (Nat × String) :=
  r.map (fun e => ((mapGet attributeKeyMap e.1).getD 0, e.2))

/-- One iteration of the per-record `csvData.map(async (record) => ...)`:
email-less records produce nothing; a hit in the pre-fetched
`emailToContactMap` dispatches on the duplicate policy (`skip` /
`update` upsert / `overwrite` delete-then-create); a miss creates a new
contact with one attribute row per record column.  A vanished contact id
(impossible here: processing only adds contacts) mirrors Prisma's throw
by producing nothing. -/
def processRecord (environmentId : String) (duplicateContactsAction : DupAction)
    (emailMap : List (String × Contact)) (attributeKeyMap : List (String × Nat))
    (s : Store) (r : CSVRecord) : Option Contact × Store :=
  if emailOf r = "" then (none, s)
  else
    match mapGet emailMap (emailOf r) with
    | some existingContact =>
      match duplicateContactsAction with
      | .skip => (none, s)
      | .update =>
        match contactById s existingContact.id with
        | some c =>
          let c' : Contact :=
            { c with attributes := upsertAttrs c.attributes (recordEntries attributeKeyMap r) }
          (some c', replaceContact s c')
        | none => (none, s)
      | .overwrite =>
        match contactById s existingContact.id with
        | some c =>
          let c' : Contact := { c with attributes := recordEntries attributeKeyMap r }
          (some c', replaceContact s c')
        | none => (none, s)
    | none =>
      let newContact : Contact :=
        ⟨s.nextContactId, environmentId, recordEntries attributeKeyMap r⟩
      (some newContact,
        { s with
          contacts := s.contacts ++ [newContact],
          nextContactId := s.nextContactId + 1 })

/-- The joined per-record phase: one `Option Contact` result per record
(the source's `results` before the `!== null` filter), threading the
store left-to-right. -/
def processAll (environmentId : String) (duplicateContactsAction : DupAction)
    (emailMap : List (String × Contact)) (attributeKeyMap : List (String × Nat)) :
    List CSVRecord → Store → List (Option Contact) × Store
  | [], s => ([], s)
  | r :: rs, s =>
    let p := processRecord environmentId duplicateContactsAction emailMap attributeKeyMap s r
    let q := processAll environmentId duplicateContactsAction emailMap attributeKeyMap rs p.2
    (p.1 :: q.1, q.2)

/-- Modelled from the spec: `validateInputs` checks the schemas
`ZContactCSVUploadResponse` and `ZContactCSVAttributeMap`, whose
definitions are not under `src/`.  Per §4.1 `records` is a non-empty
ordered sequence of flat string-maps and `attributeMap` is a flat
string-map from column names to attribute-key names, so validity is:
the batch is non-empty, every record is a flat map (distinct column
names), and the attribute map is a flat map (distinct column names). -/
def validateCSVInputs (csvData : List CSVRecord) (attributeMap : List (String × String)) : Bool :=
  !csvData.isEmpty &&
    csvData.all (fun r => decide (r.map Prod.fst).Nodup) &&
    decide (attributeMap.map Prod.fst).Nodup

instance {ε α : Type} [DecidableEq ε] [DecidableEq α] : DecidableEq (Except ε α) := fun a b =>
  match a, b with
  | .ok x, .ok y => decidable_of_iff (x = y) (by simp)
  | .error x, .error y => decidable_of_iff (x = y) (by simp)
  | .ok _, .error _ => isFalse (by simp)
  | .error _, .ok _ => isFalse (by simp)

/-- The `emailToContactMap` snapshot taken before any write. -/
def emailMapOf (s : Store) (environmentId : String) (csvData : List CSVRecord) :
    List (String × Contact) :=
  buildEmailMap s.attributeKeys (existingContactsByEmail s environmentId (csvEmailsOf csvData))

/-- The `attributeKeyMap` as first built from the environment's existing
attribute-key rows. -/
def attributeKeyMap0Of (s : Store) (environmentId : String) : List (String × Nat) :=
  buildKeyMap (envAttributeKeys s environmentId) []

/-- `missingKeys`: the batch's column names that have no definition yet. -/
def missingKeysOf (s : Store) (environmentId : String) (csvData : List CSVRecord) :
    List String :=
  (csvKeysOf csvData).filter (fun k => (mapGet (attributeKeyMap0Of s environmentId) k).isNone)

/-- The store after step 4 (attribute-key reconciliation): missing
definitions bulk-created, everything else untouched. -/
def reconciledStore (s : Store) (environmentId : String) (csvData : List CSVRecord) : Store :=
  if (missingKeysOf s environmentId csvData).isEmpty then s
  else createMissingKeys s environmentId (missingKeysOf s environmentId csvData)

/-- The `attributeKeyMap` after step 4: the re-fetched freshly created
rows layered over the initial map. -/
def reconciledKeyMap (s : Store) (environmentId : String) (csvData : List CSVRecord) :
    List (String × Nat) :=
  if (missingKeysOf s environmentId csvData).isEmpty then attributeKeyMap0Of s environmentId
  else
    buildKeyMap
      ((reconciledStore s environmentId csvData).attributeKeys.filter
        (fun ak => (missingKeysOf s environmentId csvData).contains ak.key &&
          ak.environmentId == environmentId))
      (attributeKeyMap0Of s environmentId)

/-- `attrs.find?` by attribute-key id (`(contactId, attributeKeyId)` is
the Prisma unique constraint, so this is row lookup). -/
def lookupKid (attrs : List (Nat × String)) (kid : Nat) : Option String :=
  (attrs.find? (fun a => a.1 == kid)).map Prod.snd

/-- `createContactsFromCSV`: validation, email snapshot, userId
collision check, attribute-key reconciliation, per-record resolution,
aggregation of non-null results.  (The email snapshot and the initial
key map are reads issued before the collision check in the source; as
pure definitions their evaluation order is immaterial.) -/
def createContactsFromCSV (csvData : List CSVRecord) (environmentId : String)
    (duplicateContactsAction : DupAction) (attributeMap : List (String × String))
    (s : Store) : Except ImportError (List Contact) × Store :=
  if validateCSVInputs csvData attributeMap then
    let csvUserIds := csvUserIdsOf csvData
    let collisions :=
      if csvUserIds.isEmpty then [] else userIdCollisions s environmentId csvUserIds
    match collisions with
    | v :: _ =>
      (.error (.validation ("Contact with userId " ++ v ++ " already exist for this environment")),
        s)
    | [] =>
      let res := processAll environmentId duplicateContactsAction
        (emailMapOf s environmentId csvData) (reconciledKeyMap s environmentId csvData)
        csvData (reconciledStore s environmentId csvData)
      (.ok res.1.reduceOption, res.2)
  else
    (.error (.validation "invalid inputs"), s)

/-! ## Specification-level definitions -/

/-- The value of the attribute of `c` whose key row is named `name` in
`c`'s own environment (at most one such row exists in a well-formed
store). -/
def attrValue (ks : List AttrKey) (c : Contact) (name : String) : Option String :=
  (c.attributes.find? (attrResolves ks c.environmentId name)).map Prod.snd

/-- The spec's per-environment uniqueness invariant: two distinct
contacts of the environment never carry the same non-empty `userId`
attribute value (the empty string is the falsy "absent" value, which
the pipeline's own collision check also ignores via `filter(Boolean)`). -/
def userIdUnique (s : Store) (env : String) : Prop :=
  ∀ c1 ∈ s.contacts, ∀ c2 ∈ s.contacts,
    c1.environmentId = env → c2.environmentId = env → c1.id ≠ c2.id →
    attrValue s.attributeKeys c1 "userId" = attrValue s.attributeKeys c2 "userId" →
    (attrValue s.attributeKeys c1 "userId").getD "" = ""

/-- Relational well-formedness of the store: primary keys below the
counters and pairwise distinct, `(environmentId, key)` unique on
attribute-key rows, attribute rows reference existing key rows, and the
`(contactId, attributeKeyId)` constraint on attribute rows. -/
def WF (s : Store) : Prop :=
  (∀ c ∈ s.contacts, c.id < s.nextContactId) ∧
  (s.contacts.map Contact.id).Nodup ∧
  (∀ k ∈ s.attributeKeys, k.id < s.nextAttributeKeyId) ∧
  (s.attributeKeys.map AttrKey.id).Nodup ∧
  (∀ k1 ∈ s.attributeKeys, ∀ k2 ∈ s.attributeKeys,
    k1.environmentId = k2.environmentId → k1.key = k2.key → k1 = k2) ∧
  (∀ c ∈ s.contacts, ∀ a ∈ c.attributes, ∃ k ∈ s.attributeKeys, k.id = a.1) ∧
  (∀ c ∈ s.contacts, (c.attributes.map Prod.fst).Nodup)

instance (s : Store) : Decidable (WF s) := by
  unfold WF
  infer_instance

instance (s : Store) (env : String) : Decidable (userIdUnique s env) := by
  unfold userIdUnique
  infer_instance

/-- Whether the create / update / overwrite branch runs for a record:
it has an email, and either no existing contact matches it or the
policy is not `skip`. -/
def recordActs (duplicateContactsAction : DupAction) (emailMap : List (String × Contact))
    (r : CSVRecord) : Bool :=
  emailOf r ≠ "" &&
    (match mapGet emailMap (emailOf r) with
     | some _ => duplicateContactsAction ≠ DupAction.skip
     | none => true)

/-! ## Basic lemmas -/

theorem mem_uniq_foldl (l : List String) :
    ∀ acc x, x ∈ l.foldl (fun acc x => if x ∈ acc then acc else acc ++ [x]) acc ↔
      x ∈ acc ∨ x ∈ l := by
  induction l with
  | nil => simp
  | cons y ys ih =>
    intro acc x
    simp only [List.foldl_cons]
    by_cases hy : y ∈ acc
    · rw [if_pos hy, ih]
      constructor
      · rintro (h | h)
        · exact Or.inl h
        · exact Or.inr (List.mem_cons_of_mem _ h)
      · rintro (h | h)
        · exact Or.inl h
        · rcases List.mem_cons.mp h with rfl | h
          · exact Or.inl hy
          · exact Or.inr h
    · rw [if_neg hy, ih]
      simp only [List.mem_append, List.mem_singleton, List.mem_cons]
      tauto

theorem mem_uniq {l : List String} {x : String} : x ∈ uniq l ↔ x ∈ l := by
  rw [uniq, mem_uniq_foldl]
  simp

theorem nodup_uniq_foldl (l : List String) :
    ∀ acc, acc.Nodup → (l.foldl (fun acc x => if x ∈ acc then acc else acc ++ [x]) acc).Nodup := by
  induction l with
  | nil => intro acc h; simpa using h
  | cons y ys ih =>
    intro acc hacc
    simp only [List.foldl_cons]
    by_cases hy : y ∈ acc
    · rw [if_pos hy]; exact ih acc hacc
    · rw [if_neg hy]
      refine ih _ ?_
      simpa [List.nodup_append, hacc] using fun h => hy h

theorem nodup_uniq (l : List String) : (uniq l).Nodup :=
  nodup_uniq_foldl l [] List.nodup_nil

theorem processRecord_no_email {environmentId : String} {act : DupAction}
    {em : List (String × Contact)} {km : List (String × Nat)} {s : Store} {r : CSVRecord}
    (h : emailOf r = "") :
    processRecord environmentId act em km s r = (none, s) := by
  simp [processRecord, h]

theorem processAll_append (environmentId : String) (act : DupAction)
    (em : List (String × Contact)) (km : List (String × Nat)) (l1 l2 : List CSVRecord)
    (s : Store) :
    processAll environmentId act em km (l1 ++ l2) s =
      ((processAll environmentId act em km l1 s).1 ++
        (processAll environmentId act em km l2 (processAll environmentId act em km l1 s).2).1,
       (processAll environmentId act em km l2 (processAll environmentId act em km l1 s).2).2) := by
  induction l1 generalizing s with
  | nil => simp [processAll]
  | cons r rs ih => simp [processAll, ih]

theorem lookup_mem {α : Type} {m : List (String × α)} {k : String} {v : α}
    (h : m.lookup k = some v) : (k, v) ∈ m := by
  induction m with
  | nil => simp [List.lookup] at h
  | cons p ps ih =>
    obtain ⟨a, b⟩ := p
    rw [List.lookup] at h
    by_cases hk : k = a
    · subst hk
      simp at h
      simp [h]
    · have : (k == a) = false := beq_false_of_ne hk
      rw [this] at h
      exact List.mem_cons_of_mem _ (ih h)

theorem contains_iff_mem {l : List String} {x : String} : l.contains x = true ↔ x ∈ l := by
  induction l with
  | nil => simp
  | cons a t ih =>
    simp only [List.contains_cons, Bool.or_eq_true, ih, List.mem_cons]
    constructor
    · rintro (h | h)
      · exact Or.inl (by simpa using h.symm)
      · exact Or.inr h
    · rintro (rfl | h)
      · exact Or.inl (by simp)
      · exact Or.inr h

theorem lookup_append_some {α : Type} {m1 : List (String × α)} (m2 : List (String × α))
    {k : String} {v : α} (h : m1.lookup k = some v) : (m1 ++ m2).lookup k = some v := by
  induction m1 with
  | nil => simp [List.lookup] at h
  | cons p ps ih =>
    obtain ⟨a, b⟩ := p
    by_cases hk : k = a
    · subst hk
      simp [List.lookup] at h ⊢
      exact h
    · have hb : (k == a) = false := beq_false_of_ne hk
      simp only [List.cons_append, List.lookup, hb] at h ⊢
      exact ih h

theorem lookup_append_none {α : Type} {m1 : List (String × α)} (m2 : List (String × α))
    {k : String} (h : m1.lookup k = none) : (m1 ++ m2).lookup k = m2.lookup k := by
  induction m1 with
  | nil => simp
  | cons p ps ih =>
    obtain ⟨a, b⟩ := p
    by_cases hk : k = a
    · subst hk
      simp [List.lookup] at h
    · have hb : (k == a) = false := beq_false_of_ne hk
      simp only [List.cons_append, List.lookup, hb] at h ⊢
      exact ih h

theorem lookup_cons_eq {α : Type} (m : List (String × α)) (a : String) (b : α) :
    ((a, b) :: m).lookup a = some b := by
  simp [List.lookup]

theorem lookup_cons_ne {α : Type} (m : List (String × α)) {k a : String} (b : α)
    (h : k ≠ a) : ((a, b) :: m).lookup k = m.lookup k := by
  simp [List.lookup, beq_false_of_ne h]

theorem lookup_map_replace {α : Type} (m : List (String × α)) (k' k : String) (v : α) :
    (m.map (fun p => if p.1 = k' then (k', v) else p)).lookup k =
      if k = k' then (if (m.map Prod.fst).contains k' then some v else none)
      else m.lookup k := by
  induction m with
  | nil => by_cases h : k = k' <;> simp [List.lookup, h]
  | cons p ms ih =>
    obtain ⟨a, b⟩ := p
    by_cases ha : a = k'
    · have hf : (if (a, b).1 = k' then (k', v) else (a, b)) = (k', v) := by simp [ha]
      rw [List.map_cons, hf]
      by_cases hk : k = k'
      · subst hk
        rw [lookup_cons_eq, if_pos rfl]
        have hcon : ((a, b).1 :: ms.map Prod.fst).contains k = true :=
          contains_iff_mem.mpr (by simp [ha])
        rw [List.map_cons, hcon, if_pos rfl]
      · rw [lookup_cons_ne _ _ hk, ih, if_neg hk, if_neg hk]
        have hka : k ≠ a := fun h => hk (h.trans ha)
        rw [lookup_cons_ne _ _ hka]
    · have hf : (if (a, b).1 = k' then (k', v) else (a, b)) = (a, b) := by simp [ha]
      rw [List.map_cons, hf]
      by_cases hk : k = a
      · subst hk
        rw [lookup_cons_eq, lookup_cons_eq, if_neg ha]
      · rw [lookup_cons_ne _ _ hk, lookup_cons_ne _ _ hk, ih]
        by_cases h2 : k = k'
        · rw [if_pos h2, if_pos h2, List.map_cons]
          have : ((a, b).1 :: ms.map Prod.fst).contains k' = (ms.map Prod.fst).contains k' := by
            simp [List.contains_cons, beq_false_of_ne (fun h : k' = a => ha h.symm)]
          rw [this]
        · rw [if_neg h2, if_neg h2]

theorem mapGet_mapSet {α : Type} (m : List (String × α)) (k' k : String) (v : α) :
    mapGet (mapSet m k' v) k = if k = k' then some v else mapGet m k := by
  rw [mapSet, mapGet]
  by_cases hc : (m.map Prod.fst).contains k'
  · rw [if_pos hc, lookup_map_replace, if_pos hc, mapGet]
  · rw [if_neg hc]
    by_cases hk : k = k'
    · subst hk
      have hnone : m.lookup k = none := by
        cases h : m.lookup k with
        | none => rfl
        | some w =>
          exact absurd (contains_iff_mem.mpr (List.mem_map_of_mem Prod.fst (lookup_mem h))) hc
      rw [lookup_append_none _ hnone, if_pos rfl]
      simp [List.lookup]
    · rw [if_neg hk, mapGet]
      cases h : m.lookup k with
      | none =>
        rw [lookup_append_none _ h]
        simp [List.lookup, beq_false_of_ne hk]
      | some w => exact lookup_append_some _ h

theorem mapGet_buildKeyMap_origin {ks : List AttrKey} {init : List (String × Nat)}
    {k : String} {i : Nat} :
    mapGet (buildKeyMap ks init) k = some i →
      (∃ ak ∈ ks, ak.key = k ∧ ak.id = i) ∨ mapGet init k = some i := by
  induction ks generalizing init with
  | nil => exact fun h => Or.inr h
  | cons ak t ih =>
    intro h
    rw [buildKeyMap, List.foldl_cons] at h
    rcases ih h with hin | hout
    · obtain ⟨ak', hak', hk, hi⟩ := hin
      exact Or.inl ⟨ak', List.mem_cons_of_mem _ hak', hk, hi⟩
    · rw [mapGet_mapSet] at hout
      by_cases hk : k = ak.key
      · rw [if_pos hk] at hout
        exact Or.inl ⟨ak, List.mem_cons_self _ _, hk.symm, (Option.some.injEq _ _).mp hout⟩
      · rw [if_neg hk] at hout
        exact Or.inr hout

theorem mapGet_buildKeyMap_isSome_mono {ks : List AttrKey} {init : List (String × Nat)}
    {k : String} (h : (mapGet init k).isSome = true) :
    (mapGet (buildKeyMap ks init) k).isSome = true := by
  induction ks generalizing init with
  | nil => exact h
  | cons ak t ih =>
    rw [buildKeyMap, List.foldl_cons]
    refine ih ?_
    rw [mapGet_mapSet]
    by_cases hk : k = ak.key
    · simp [hk]
    · rw [if_neg hk]; exact h

theorem mapGet_buildKeyMap_isSome_of_mem {ks : List AttrKey} {init : List (String × Nat)}
    {k : String} (h : ∃ ak ∈ ks, ak.key = k) :
    (mapGet (buildKeyMap ks init) k).isSome = true := by
  induction ks generalizing init with
  | nil => simp at h
  | cons a t ih =>
    rw [buildKeyMap, List.foldl_cons]
    obtain ⟨ak, hak, hk⟩ := h
    rcases List.mem_cons.mp hak with rfl | hmem
    · refine mapGet_buildKeyMap_isSome_mono ?_
      rw [mapGet_mapSet, if_pos hk.symm]
      rfl
    · exact ih ⟨ak, hmem, hk⟩

theorem createMissingKeys_keys_mono {s : Store} {environmentId : String}
    {l : List String} {ak : AttrKey} (h : ak ∈ s.attributeKeys) :
    ak ∈ (createMissingKeys s environmentId l).attributeKeys := by
  induction l generalizing s with
  | nil => exact h
  | cons k t ih =>
    rw [createMissingKeys, List.foldl_cons]
    split
    · exact ih h
    · exact ih (List.mem_append_left _ h)

theorem createMissingKeys_exists {s : Store} {environmentId : String} {l : List String}
    {k : String} (h : k ∈ l) :
    ∃ ak ∈ (createMissingKeys s environmentId l).attributeKeys,
      ak.key = k ∧ ak.environmentId = environmentId := by
  induction l generalizing s with
  | nil => cases h
  | cons k0 t ih =>
    rw [createMissingKeys, List.foldl_cons]
    rcases List.mem_cons.mp h with rfl | hmem
    · split
      · rename_i hany
        obtain ⟨ak, hak, hp⟩ := List.any_eq_true.mp hany
        simp only [Bool.and_eq_true, beq_iff_eq] at hp
        exact ⟨ak, createMissingKeys_keys_mono hak, hp.1, hp.2⟩
      · refine ⟨⟨s.nextAttributeKeyId, k, k, environmentId⟩,
          createMissingKeys_keys_mono (List.mem_append_right _ (List.mem_singleton.mpr rfl)),
          rfl, rfl⟩
    · split
      · exact ih hmem
      · exact ih hmem

theorem processRecord_keys_eq (environmentId : String) (act : DupAction)
    (em : List (String × Contact)) (km : List (String × Nat)) (s : Store) (r : CSVRecord) :
    (processRecord environmentId act em km s r).2.attributeKeys = s.attributeKeys ∧
    (processRecord environmentId act em km s r).2.nextAttributeKeyId = s.nextAttributeKeyId := by
  rw [processRecord]
  split
  · exact ⟨rfl, rfl⟩
  · split
    · split
      · exact ⟨rfl, rfl⟩
      · split
        · exact ⟨rfl, rfl⟩
        · exact ⟨rfl, rfl⟩
      · split
        · exact ⟨rfl, rfl⟩
        · exact ⟨rfl, rfl⟩
    · exact ⟨rfl, rfl⟩

theorem processAll_keys_eq (environmentId : String) (act : DupAction)
    (em : List (String × Contact)) (km : List (String × Nat)) :
    ∀ (recs : List CSVRecord) (s : Store),
      (processAll environmentId act em km recs s).2.attributeKeys = s.attributeKeys ∧
      (processAll environmentId act em km recs s).2.nextAttributeKeyId = s.nextAttributeKeyId := by
  intro recs
  induction recs with
  | nil => intro s; exact ⟨rfl, rfl⟩
  | cons r rs ih =>
    intro s
    rw [processAll]
    obtain ⟨h1, h2⟩ := processRecord_keys_eq environmentId act em km s r
    obtain ⟨h3, h4⟩ := ih (processRecord environmentId act em km s r).2
    exact ⟨h3.trans h1, h4.trans h2⟩

theorem userIdCollisions_nil_of_no_env_key {s : Store} {env : String} (uids : List String)
    (h : envAttributeKeys s env = []) : userIdCollisions s env uids = [] := by
  rw [userIdCollisions]
  have hf : ((s.contacts.flatMap Contact.attributes).filter
      (fun a => attrResolves s.attributeKeys env "userId" a && uids.contains a.2)) = [] := by
    rw [List.filter_eq_nil_iff]
    intro a _
    have hres : attrResolves s.attributeKeys env "userId" a = false := by
      rw [attrResolves]
      cases hk : keyById s.attributeKeys a.1 with
      | none => rfl
      | some k =>
        have hkmem : k ∈ s.attributeKeys := List.mem_of_find?_eq_some hk
        have : ∀ ak ∈ s.attributeKeys, ¬((ak.environmentId == env) = true) := by
          intro ak hak
          exact (List.filter_eq_nil_iff.mp h) ak hak
        have henv : (k.environmentId == env) = false := by
          cases he : k.environmentId == env with
          | false => rfl
          | true => exact absurd he (this k hkmem)
        simp [henv]
    simp [hres]
  rw [hf]
  rfl

theorem createMissingKeys_contacts (environmentId : String) (l : List String) :
    ∀ s : Store, (createMissingKeys s environmentId l).contacts = s.contacts ∧
      (createMissingKeys s environmentId l).nextContactId = s.nextContactId := by
  induction l with
  | nil => intro s; exact ⟨rfl, rfl⟩
  | cons k t ih =>
    intro s
    rw [createMissingKeys, List.foldl_cons]
    split
    · exact ih s
    · exact ih _

theorem createMissingKeys_env_key_names (env : String) (missing : List String) :
    ∀ s : Store, missing.Nodup →
      (∀ ak ∈ s.attributeKeys, ak.environmentId = env → ak.key ∉ missing) →
      (envAttributeKeys (createMissingKeys s env missing) env).map AttrKey.key =
        (envAttributeKeys s env).map AttrKey.key ++ missing := by
  induction missing with
  | nil => intro s _ _; simp [createMissingKeys]
  | cons k t ih =>
    intro s hnd hdisj
    rw [createMissingKeys, List.foldl_cons]
    have hany : (s.attributeKeys.any fun ak => ak.key == k && ak.environmentId == env) = false := by
      cases h : s.attributeKeys.any fun ak => ak.key == k && ak.environmentId == env with
      | false => rfl
      | true =>
        obtain ⟨ak, hak, hp⟩ := List.any_eq_true.mp h
        simp only [Bool.and_eq_true, beq_iff_eq] at hp
        exact absurd (List.mem_cons_self k t) (hdisj ak hak hp.2 |> fun hn =>
          by rw [hp.1] at hn; exact hn)
    rw [if_neg (by simp [hany])]
    have hstep := ih
      { s with
        attributeKeys := s.attributeKeys ++ [⟨s.nextAttributeKeyId, k, k, env⟩],
        nextAttributeKeyId := s.nextAttributeKeyId + 1 }
      (List.Nodup.of_cons hnd)
      (by
        intro ak hak henv
        rcases List.mem_append.mp hak with hold | hnew
        · exact fun ht => hdisj ak hold henv (List.mem_cons_of_mem _ ht)
        · rw [List.mem_singleton.mp hnew]
          exact fun ht => (List.nodup_cons.mp hnd).1 ht)
    rw [createMissingKeys] at hstep
    rw [hstep]
    have henvk : envAttributeKeys
        { s with
          attributeKeys := s.attributeKeys ++ [⟨s.nextAttributeKeyId, k, k, env⟩],
          nextAttributeKeyId := s.nextAttributeKeyId + 1 } env =
        envAttributeKeys s env ++ [⟨s.nextAttributeKeyId, k, k, env⟩] := by
      rw [envAttributeKeys, envAttributeKeys]
      simp [List.filter_append]
    rw [henvk]
    simp

theorem missingKeysOf_nil_of_complete {csvData : List CSVRecord} {environmentId : String}
    {s : Store}
    (h : ∀ k ∈ csvKeysOf csvData, ∃ ak ∈ s.attributeKeys,
      ak.key = k ∧ ak.environmentId = environmentId) :
    missingKeysOf s environmentId csvData = [] := by
  rw [missingKeysOf, List.filter_eq_nil_iff]
  intro k hk
  obtain ⟨ak, hak, hkey, henv⟩ := h k hk
  have hsome : (mapGet (attributeKeyMap0Of s environmentId) k).isSome = true := by
    rw [attributeKeyMap0Of]
    refine mapGet_buildKeyMap_isSome_of_mem ⟨ak, ?_, hkey⟩
    rw [envAttributeKeys]
    exact List.mem_filter.mpr ⟨hak, by simp [henv]⟩
  simp only [Option.isNone_iff_eq_none]
  intro hnone
  rw [hnone] at hsome
  cases hsome

theorem createContactsFromCSV_keys_stable (csvData : List CSVRecord) (environmentId : String)
    (act : DupAction) (am : List (String × String)) (s : Store)
    (h : ∀ k ∈ csvKeysOf csvData, ∃ ak ∈ s.attributeKeys,
      ak.key = k ∧ ak.environmentId = environmentId) :
    (createContactsFromCSV csvData environmentId act am s).2.attributeKeys = s.attributeKeys := by
  have hmiss := missingKeysOf_nil_of_complete h
  have hrs : reconciledStore s environmentId csvData = s := by
    rw [reconciledStore, hmiss]
    rfl
  rw [createContactsFromCSV]
  split
  · dsimp only
    cases hcol : (if (csvUserIdsOf csvData).isEmpty = true then []
        else userIdCollisions s environmentId (csvUserIdsOf csvData)) with
    | cons v t => rfl
    | nil =>
      have := (processAll_keys_eq environmentId act (emailMapOf s environmentId csvData)
        (reconciledKeyMap s environmentId csvData) csvData
        (reconciledStore s environmentId csvData)).1
      simpa [hrs] using this
  · rfl

theorem processRecord_mem_id {environmentId : String} {act : DupAction}
    {em : List (String × Contact)} {km : List (String × Nat)} {s : Store} {r : CSVRecord}
    {i : Nat} (h : ∃ c ∈ s.contacts, c.id = i) :
    ∃ c ∈ (processRecord environmentId act em km s r).2.contacts, c.id = i := by
  obtain ⟨c, hc, hci⟩ := h
  rw [processRecord]
  split
  · exact ⟨c, hc, hci⟩
  · split
    · split
      · exact ⟨c, hc, hci⟩
      · split
        · rename_i c0 heq
          refine ⟨if c.id == _ then _ else c, List.mem_map_of_mem _ hc, ?_⟩
          split
          · rename_i hid
            have hfound := List.find?_some heq
            simp at hfound hid
            simp [← hci, hid, hfound]
          · exact hci
        · exact ⟨c, hc, hci⟩
      · split
        · rename_i c0 heq
          refine ⟨if c.id == _ then _ else c, List.mem_map_of_mem _ hc, ?_⟩
          split
          · rename_i hid
            have hfound := List.find?_some heq
            simp at hfound hid
            simp [← hci, hid, hfound]
          · exact hci
        · exact ⟨c, hc, hci⟩
    · exact ⟨c, List.mem_append_left _ hc, hci⟩

theorem find?_append_some {α : Type} {p : α → Bool} {l1 : List α} (l2 : List α) {a : α}
    (h : l1.find? p = some a) : (l1 ++ l2).find? p = some a := by
  induction l1 with
  | nil => simp [List.find?] at h
  | cons x t ih =>
    rw [List.cons_append]
    cases hx : p x with
    | true => rw [List.find?_cons_of_pos _ hx] at h ⊢; exact h
    | false =>
      rw [List.find?_cons_of_neg _ (by simp [hx])] at h ⊢
      exact ih h

theorem find?_id_of_mem_nodup {c : Contact} :
    ∀ {l : List Contact}, (l.map Contact.id).Nodup → c ∈ l →
      l.find? (fun x => x.id == c.id) = some c := by
  intro l
  induction l with
  | nil => intro _ h; cases h
  | cons a t ih =>
    intro hnd hc
    rcases List.mem_cons.mp hc with rfl | hmem
    · rw [List.find?_cons_of_pos _ (by simp)]
    · cases hx : a.id == c.id with
      | false => rw [List.find?_cons_of_neg _ (by simp [hx])]
                 exact ih (List.nodup_cons.mp (by simpa using hnd)).2 hmem
      | true =>
        exfalso
        have hid : a.id = c.id := by simpa using hx
        have : a.id ∉ t.map Contact.id := (List.nodup_cons.mp (by simpa using hnd)).1
        exact this (hid ▸ List.mem_map_of_mem Contact.id hmem)

theorem contactById_of_mem_nodup {s : Store} {c : Contact}
    (hnd : (s.contacts.map Contact.id).Nodup) (hc : c ∈ s.contacts) :
    contactById s c.id = some c :=
  find?_id_of_mem_nodup hnd hc

theorem buildEmailMap_fold_sound {ks : List AttrKey} :
    ∀ (cs : List Contact) (acc : List (String × Contact)) (e : String) (c : Contact),
      mapGet (cs.foldl (fun m c =>
        match c.attributes.find? (attrKeyNameIs ks "email") with
        | some a => mapSet m a.2 c
        | none => m) acc) e = some c →
      (c ∈ cs ∧ ∃ a, c.attributes.find? (attrKeyNameIs ks "email") = some a ∧ a.2 = e) ∨
        mapGet acc e = some c := by
  intro cs
  induction cs with
  | nil => intro acc e c h; exact Or.inr h
  | cons c0 t ih =>
    intro acc e c h
    rw [List.foldl_cons] at h
    cases hfind : c0.attributes.find? (attrKeyNameIs ks "email") with
    | none =>
      rw [hfind] at h
      rcases ih acc e c h with ⟨hmem, hrest⟩ | hacc
      · exact Or.inl ⟨List.mem_cons_of_mem _ hmem, hrest⟩
      · exact Or.inr hacc
    | some a =>
      rw [hfind] at h
      rcases ih (mapSet acc a.2 c0) e c h with ⟨hmem, hrest⟩ | hacc
      · exact Or.inl ⟨List.mem_cons_of_mem _ hmem, hrest⟩
      · rw [mapGet_mapSet] at hacc
        by_cases he : e = a.2
        · rw [if_pos he] at hacc
          have : c0 = c := by simpa using hacc
          subst this
          exact Or.inl ⟨List.mem_cons_self _ _, a, hfind, he.symm⟩
        · rw [if_neg he] at hacc
          exact Or.inr hacc

theorem buildEmailMap_sound {ks : List AttrKey} {cs : List Contact} {e : String} {c : Contact}
    (h : mapGet (buildEmailMap ks cs) e = some c) :
    c ∈ cs ∧ ∃ a, c.attributes.find? (attrKeyNameIs ks "email") = some a ∧ a.2 = e := by
  rcases buildEmailMap_fold_sound cs [] e c h with hfound | hacc
  · exact hfound
  · simp [mapGet, List.lookup] at hacc

theorem emailMapOf_sound {s : Store} {environmentId : String} {csvData : List CSVRecord}
    {e : String} {c : Contact}
    (h : mapGet (emailMapOf s environmentId csvData) e = some c) :
    c ∈ s.contacts ∧ c.environmentId = environmentId ∧
      ∃ a, c.attributes.find? (attrKeyNameIs s.attributeKeys "email") = some a ∧ a.2 = e := by
  obtain ⟨hmem, hrest⟩ := buildEmailMap_sound h
  rw [existingContactsByEmail] at hmem
  obtain ⟨hcs, hcond⟩ := List.mem_filter.mp hmem
  simp only [Bool.and_eq_true, beq_iff_eq] at hcond
  exact ⟨hcs, hcond.1, hrest⟩

theorem processRecord_skip_step (environmentId : String) (em : List (String × Contact))
    (km : List (String × Nat)) (s : Store) (r : CSVRecord) :
    processRecord environmentId DupAction.skip em km s r = (none, s) ∨
    ∃ c, processRecord environmentId DupAction.skip em km s r =
        (some c, { s with contacts := s.contacts ++ [c], nextContactId := s.nextContactId + 1 }) ∧
      c.id = s.nextContactId := by
  rw [processRecord]
  split
  · exact Or.inl rfl
  · cases hget : mapGet em (emailOf r) with
    | some ec => exact Or.inl rfl
    | none => exact Or.inr ⟨_, rfl, rfl⟩

theorem processAll_skip_contactById (environmentId : String) (em : List (String × Contact))
    (km : List (String × Nat)) (recs : List CSVRecord) :
    ∀ (s : Store) (i : Nat) (c : Contact), contactById s i = some c →
      contactById (processAll environmentId DupAction.skip em km recs s).2 i = some c := by
  induction recs with
  | nil => intro s i c h; exact h
  | cons r rs ih =>
    intro s i c h
    rw [processAll]
    rcases processRecord_skip_step environmentId em km s r with hnone | ⟨cnew, heq, _⟩
    · rw [hnone]
      exact ih s i c h
    · rw [heq]
      refine ih _ i c ?_
      rw [contactById] at h ⊢
      exact find?_append_some _ h

theorem processAll_skip_out_ids (environmentId : String) (em : List (String × Contact))
    (km : List (String × Nat)) (recs : List CSVRecord) :
    ∀ s : Store,
      s.nextContactId ≤ (processAll environmentId DupAction.skip em km recs s).2.nextContactId ∧
      ∀ c, some c ∈ (processAll environmentId DupAction.skip em km recs s).1 →
        s.nextContactId ≤ c.id := by
  induction recs with
  | nil =>
    intro s
    exact ⟨Nat.le_refl _, by intro c h; cases h⟩
  | cons r rs ih =>
    intro s
    rw [processAll]
    rcases processRecord_skip_step environmentId em km s r with hnone | ⟨cnew, heq, hid⟩
    · rw [hnone]
      refine ⟨(ih s).1, ?_⟩
      intro c hc
      rcases List.mem_cons.mp hc with hhd | htl
      · cases hhd
      · exact (ih s).2 c htl
    · rw [heq]
      set s2 : Store :=
        { s with contacts := s.contacts ++ [cnew], nextContactId := s.nextContactId + 1 } with hs2
      have hmono : s.nextContactId ≤ s2.nextContactId := Nat.le_succ _
      refine ⟨Nat.le_trans hmono (ih s2).1, ?_⟩
      intro c hc
      rcases List.mem_cons.mp hc with hhd | htl
      · have hcc : c = cnew := by simpa using hhd
        subst hcc
        rw [hid]
      · exact Nat.le_trans hmono ((ih s2).2 c htl)

theorem find?_append_none {α : Type} {p : α → Bool} {l1 : List α} (l2 : List α)
    (h : l1.find? p = none) : (l1 ++ l2).find? p = l2.find? p := by
  induction l1 with
  | nil => rfl
  | cons x t ih =>
    rw [List.cons_append]
    cases hx : p x with
    | true => rw [List.find?_cons_of_pos _ hx] at h; cases h
    | false =>
      rw [List.find?_cons_of_neg _ (by simp [hx])] at h ⊢
      exact ih h

theorem find?_ext {α : Type} {p q : α → Bool} (h : ∀ a, p a = q a) :
    ∀ l : List α, l.find? p = l.find? q := by
  intro l
  induction l with
  | nil => rfl
  | cons x t ih =>
    cases hx : p x with
    | true => rw [List.find?_cons_of_pos _ hx, List.find?_cons_of_pos _ ((h x) ▸ hx)]
    | false =>
      rw [List.find?_cons_of_neg _ (by simp [hx]),
        List.find?_cons_of_neg _ (by simp [← h x, hx])]
      exact ih

theorem find?_ext_mem {α : Type} {p q : α → Bool} :
    ∀ {l : List α}, (∀ a ∈ l, p a = q a) → l.find? p = l.find? q := by
  intro l
  induction l with
  | nil => intro _; rfl
  | cons x t ih =>
    intro h
    cases hx : p x with
    | true =>
      rw [List.find?_cons_of_pos _ hx,
        List.find?_cons_of_pos _ ((h x (List.mem_cons_self x t)) ▸ hx)]
    | false =>
      rw [List.find?_cons_of_neg _ (by simp [hx]),
        List.find?_cons_of_neg _ (by simp [← h x (List.mem_cons_self x t), hx])]
      exact ih (fun a ha => h a (List.mem_cons_of_mem _ ha))

theorem find?_kid_of_mem_nodup {ak : AttrKey} :
    ∀ {ks : List AttrKey}, (ks.map AttrKey.id).Nodup → ak ∈ ks →
      ks.find? (fun x => x.id == ak.id) = some ak := by
  intro ks
  induction ks with
  | nil => intro _ h; cases h
  | cons a t ih =>
    intro hnd hk
    rcases List.mem_cons.mp hk with rfl | hmem
    · rw [List.find?_cons_of_pos _ (by simp)]
    · cases hx : a.id == ak.id with
      | false => rw [List.find?_cons_of_neg _ (by simp [hx])]
                 exact ih (List.nodup_cons.mp (by simpa using hnd)).2 hmem
      | true =>
        exfalso
        have hid : a.id = ak.id := by simpa using hx
        have : a.id ∉ t.map AttrKey.id := (List.nodup_cons.mp (by simpa using hnd)).1
        exact this (hid ▸ List.mem_map_of_mem AttrKey.id hmem)

theorem keyById_of_mem_nodup {ks : List AttrKey} {ak : AttrKey}
    (hnd : (ks.map AttrKey.id).Nodup) (h : ak ∈ ks) : keyById ks ak.id = some ak :=
  find?_kid_of_mem_nodup hnd h

theorem find?_id_map_replace (c' : Contact) (i : Nat) (h : i ≠ c'.id) :
    ∀ l : List Contact,
      (l.map (fun c => if c.id == c'.id then c' else c)).find? (fun c => c.id == i) =
        l.find? (fun c => c.id == i) := by
  intro l
  induction l with
  | nil => rfl
  | cons x t ih =>
    rw [List.map_cons]
    by_cases hx : x.id = c'.id
    · have hpc : (c'.id == i) = false := by
        simp only [beq_eq_false_iff_ne, ne_eq]
        exact fun hh => h hh.symm
      have hpx : (x.id == i) = false := by rw [hx]; exact hpc
      have hfx : (if x.id == c'.id then c' else x) = c' := by simp [hx]
      rw [hfx, List.find?_cons, hpc, List.find?_cons, hpx]
      exact ih
    · have hfx : (if x.id == c'.id then c' else x) = x := by simp [hx]
      rw [hfx, List.find?_cons, List.find?_cons]
      cases hp : (x.id == i) with
      | true => rfl
      | false => exact ih

theorem contactById_replaceContact_ne {s : Store} {c' : Contact} {i : Nat} (h : i ≠ c'.id) :
    contactById (replaceContact s c') i = contactById s i :=
  find?_id_map_replace c' i h s.contacts

theorem find?_id_map_replace_eq (c c' : Contact) :
    ∀ l : List Contact, l.find? (fun x => x.id == c'.id) = some c →
      (l.map (fun x => if x.id == c'.id then c' else x)).find? (fun x => x.id == c'.id) =
        some c' := by
  intro l
  induction l with
  | nil => intro h; cases h
  | cons x t ih =>
    intro h
    rw [List.map_cons]
    by_cases hp : x.id = c'.id
    · have hfx : (if x.id == c'.id then c' else x) = c' := by simp [hp]
      have hcc : (c'.id == c'.id) = true := by simp
      rw [hfx, List.find?_cons, hcc]
    · have hb : (x.id == c'.id) = false := beq_false_of_ne hp
      have hfx : (if x.id == c'.id then c' else x) = x := by simp [hp]
      rw [List.find?_cons, hb] at h
      rw [hfx, List.find?_cons, hb]
      exact ih h

theorem contactById_replaceContact_eq {s : Store} {c c' : Contact}
    (h : contactById s c'.id = some c) :
    contactById (replaceContact s c') c'.id = some c' :=
  find?_id_map_replace_eq c c' s.contacts h

theorem processRecord_nextContactId_mono (environmentId : String) (act : DupAction)
    (em : List (String × Contact)) (km : List (String × Nat)) (s : Store) (r : CSVRecord) :
    s.nextContactId ≤ (processRecord environmentId act em km s r).2.nextContactId := by
  rw [processRecord]
  split
  · exact Nat.le_refl _
  · split
    · split
      · exact Nat.le_refl _
      · split
        · exact Nat.le_refl _
        · exact Nat.le_refl _
      · split
        · exact Nat.le_refl _
        · exact Nat.le_refl _
    · exact Nat.le_succ _

theorem processRecord_untouched {environmentId : String} {act : DupAction}
    {em : List (String × Contact)} {km : List (String × Nat)} {s : Store} {r : CSVRecord}
    {i : Nat} (hi : i < s.nextContactId)
    (hr : emailOf r = "" ∨ ∀ c', mapGet em (emailOf r) = some c' → c'.id ≠ i) :
    contactById (processRecord environmentId act em km s r).2 i = contactById s i := by
  by_cases he : emailOf r = ""
  · rw [processRecord, if_pos he]
  · rw [processRecord, if_neg he]
    cases hget : mapGet em (emailOf r) with
    | some ec =>
      have hne : ec.id ≠ i := by
        rcases hr with h0 | h0
        · exact absurd h0 he
        · exact h0 ec hget
      simp only [hget]
      cases act with
      | skip => rfl
      | update =>
        cases hfind : contactById s ec.id with
        | none => simp only [hfind]
        | some c =>
          simp only [hfind]
          have hcid : c.id = ec.id := by
            have := List.find?_some hfind
            simpa using this
          refine contactById_replaceContact_ne ?_
          show i ≠ c.id
          rw [hcid]
          exact fun hh => hne hh.symm
      | overwrite =>
        cases hfind : contactById s ec.id with
        | none => simp only [hfind]
        | some c =>
          simp only [hfind]
          have hcid : c.id = ec.id := by
            have := List.find?_some hfind
            simpa using this
          refine contactById_replaceContact_ne ?_
          show i ≠ c.id
          rw [hcid]
          exact fun hh => hne hh.symm
    | none =>
      simp only [hget]
      show contactById
        { s with
          contacts := s.contacts ++ [⟨s.nextContactId, environmentId, recordEntries km r⟩],
          nextContactId := s.nextContactId + 1 } i = contactById s i
      rw [contactById, contactById]
      show (s.contacts ++ [(⟨s.nextContactId, environmentId, recordEntries km r⟩ : Contact)]).find?
          (fun c => c.id == i) = s.contacts.find? (fun c => c.id == i)
      cases hf : s.contacts.find? (fun c => c.id == i) with
      | some c => exact find?_append_some _ hf
      | none =>
        rw [find?_append_none _ hf]
        have hni : ((⟨s.nextContactId, environmentId, recordEntries km r⟩ : Contact).id == i) =
            false := by
          simp only [beq_eq_false_iff_ne, ne_eq]
          show ¬s.nextContactId = i
          omega
        rw [List.find?_cons, hni]
        rfl

theorem processAll_untouched {environmentId : String} {act : DupAction}
    {em : List (String × Contact)} {km : List (String × Nat)} (recs : List CSVRecord) :
    ∀ (s : Store) (i : Nat), i < s.nextContactId →
      (∀ r' ∈ recs, emailOf r' = "" ∨ ∀ c', mapGet em (emailOf r') = some c' → c'.id ≠ i) →
      contactById (processAll environmentId act em km recs s).2 i = contactById s i ∧
        s.nextContactId ≤ (processAll environmentId act em km recs s).2.nextContactId := by
  induction recs with
  | nil => intro s i _ _; exact ⟨rfl, Nat.le_refl _⟩
  | cons r rs ih =>
    intro s i hi hr
    rw [processAll]
    have hstep : contactById (processRecord environmentId act em km s r).2 i =
        contactById s i :=
      processRecord_untouched hi (hr r (List.mem_cons_self r rs))
    have hmono := processRecord_nextContactId_mono environmentId act em km s r
    have htail := ih (processRecord environmentId act em km s r).2 i
      (Nat.lt_of_lt_of_le hi hmono)
      (fun r' hr' => hr r' (List.mem_cons_of_mem _ hr'))
    exact ⟨htail.1.trans hstep, Nat.le_trans hmono htail.2⟩

theorem emailMapOf_id_inj {s : Store} {environmentId : String} {csvData : List CSVRecord}
    {e1 e2 : String} {c1 c2 : Contact}
    (hnd : (s.contacts.map Contact.id).Nodup)
    (h1 : mapGet (emailMapOf s environmentId csvData) e1 = some c1)
    (h2 : mapGet (emailMapOf s environmentId csvData) e2 = some c2)
    (hne : e1 ≠ e2) : c1.id ≠ c2.id := by
  intro hid
  obtain ⟨hm1, _, a1, hf1, ha1⟩ := emailMapOf_sound h1
  obtain ⟨hm2, _, a2, hf2, ha2⟩ := emailMapOf_sound h2
  have hc12 : c1 = c2 := List.inj_on_of_nodup_map hnd hm1 hm2 hid
  subst hc12
  rw [hf1] at hf2
  cases hf2
  exact hne (ha1 ▸ ha2 ▸ rfl)

theorem createMissingKeys_extends (environmentId : String) (l : List String) :
    ∀ s : Store, ∃ tail, (createMissingKeys s environmentId l).attributeKeys =
      s.attributeKeys ++ tail := by
  induction l with
  | nil => intro s; exact ⟨[], by simp [createMissingKeys]⟩
  | cons k t ih =>
    intro s
    rw [createMissingKeys, List.foldl_cons]
    split
    · exact ih s
    · obtain ⟨tail, htail⟩ := ih
        { s with
          attributeKeys := s.attributeKeys ++ [⟨s.nextAttributeKeyId, k, k, environmentId⟩],
          nextAttributeKeyId := s.nextAttributeKeyId + 1 }
      rw [createMissingKeys] at htail
      exact ⟨⟨s.nextAttributeKeyId, k, k, environmentId⟩ :: tail, by rw [htail]; simp⟩

theorem reconciledStore_extends (s : Store) (environmentId : String)
    (csvData : List CSVRecord) :
    ∃ tail, (reconciledStore s environmentId csvData).attributeKeys =
      s.attributeKeys ++ tail := by
  rw [reconciledStore]
  split
  · exact ⟨[], by simp⟩
  · exact createMissingKeys_extends environmentId _ s

theorem reconciledStore_contacts (s : Store) (environmentId : String)
    (csvData : List CSVRecord) :
    (reconciledStore s environmentId csvData).contacts = s.contacts ∧
      (reconciledStore s environmentId csvData).nextContactId = s.nextContactId := by
  rw [reconciledStore]
  split
  · exact ⟨rfl, rfl⟩
  · exact createMissingKeys_contacts environmentId _ s

theorem createMissingKeys_WF (environmentId : String) (l : List String) :
    ∀ s : Store, WF s → WF (createMissingKeys s environmentId l) := by
  induction l with
  | nil => intro s h; exact h
  | cons k t ih =>
    intro s h
    rw [createMissingKeys, List.foldl_cons]
    split
    · exact ih s h
    · rename_i hany
      refine ih _ ?_
      obtain ⟨h1, h2, h3, h4, h5, h6, h7⟩ := h
      have hnoenv : ∀ ak ∈ s.attributeKeys, ¬(ak.key = k ∧ ak.environmentId = environmentId) := by
        intro ak hak hcon
        exact hany (List.any_eq_true.mpr ⟨ak, hak, by simp [hcon.1, hcon.2]⟩)
      refine ⟨h1, h2, ?_, ?_, ?_, ?_, h7⟩
      · intro ak hak
        rcases List.mem_append.mp hak with hold | hnew
        · exact Nat.lt_succ_of_lt (h3 ak hold)
        · rw [List.mem_singleton.mp hnew]
          exact Nat.lt_succ_self _
      · rw [List.map_append, List.nodup_append]
        refine ⟨h4, by simp, ?_⟩
        intro a ha
        simp only [List.map_cons, List.map_nil, List.mem_singleton]
        obtain ⟨ak, hak, hid⟩ := List.mem_map.mp ha
        intro heq
        have := h3 ak hak
        omega
      · intro k1 hk1 k2 hk2 henv hkey
        rcases List.mem_append.mp hk1 with ho1 | hn1 <;>
          rcases List.mem_append.mp hk2 with ho2 | hn2
        · exact h5 k1 ho1 k2 ho2 henv hkey
        · exfalso
          rw [List.mem_singleton.mp hn2] at henv hkey
          exact hnoenv k1 ho1 ⟨hkey, henv⟩
        · exfalso
          rw [List.mem_singleton.mp hn1] at henv hkey
          exact hnoenv k2 ho2 ⟨hkey.symm, henv.symm⟩
        · rw [List.mem_singleton.mp hn1, List.mem_singleton.mp hn2]
      · intro c hc a ha
        obtain ⟨ak, hak, hid⟩ := h6 c hc a ha
        exact ⟨ak, List.mem_append_left _ hak, hid⟩

theorem reconciledStore_WF {s : Store} {environmentId : String} {csvData : List CSVRecord}
    (h : WF s) : WF (reconciledStore s environmentId csvData) := by
  rw [reconciledStore]
  split
  · exact h
  · exact createMissingKeys_WF environmentId _ s h

theorem mapGet_buildKeyMap_not_mem {ks : List AttrKey} {k : String}
    (h : ∀ ak ∈ ks, ak.key ≠ k) :
    ∀ init : List (String × Nat), mapGet (buildKeyMap ks init) k = mapGet init k := by
  induction ks with
  | nil => intro init; rfl
  | cons a t ih =>
    intro init
    rw [buildKeyMap, List.foldl_cons]
    have hrec := ih (fun ak hak => h ak (List.mem_cons_of_mem _ hak)) (mapSet init a.key a.id)
    rw [buildKeyMap] at hrec
    rw [hrec, mapGet_mapSet, if_neg (fun hh => h a (List.mem_cons_self a t) hh.symm)]

theorem reconciledKeyMap_complete {s : Store} {environmentId : String}
    {csvData : List CSVRecord} (hWF : WF s) :
    ∀ k ∈ csvKeysOf csvData, ∃ kid ak,
      mapGet (reconciledKeyMap s environmentId csvData) k = some kid ∧
      keyById (reconciledStore s environmentId csvData).attributeKeys kid = some ak ∧
      ak.key = k ∧ ak.environmentId = environmentId := by
  intro k hk
  have hWF1 : WF (reconciledStore s environmentId csvData) := reconciledStore_WF hWF
  obtain ⟨_, _, _, hnd1, _, _, _⟩ := hWF1
  by_cases hmiss : k ∈ missingKeysOf s environmentId csvData
  · have hne : (missingKeysOf s environmentId csvData).isEmpty = false := by
      cases hmm : missingKeysOf s environmentId csvData with
      | nil => rw [hmm] at hmiss; cases hmiss
      | cons _ _ => rfl
    have hrs : reconciledStore s environmentId csvData =
        createMissingKeys s environmentId (missingKeysOf s environmentId csvData) := by
      rw [reconciledStore, hne]
      rfl
    obtain ⟨row, hrow, hrkey, hrenv⟩ :=
      @createMissingKeys_exists s environmentId _ _ hmiss
    have hrow1 : row ∈ (reconciledStore s environmentId csvData).attributeKeys := by
      rw [hrs]
      exact hrow
    have hrowf : row ∈ (reconciledStore s environmentId csvData).attributeKeys.filter
        (fun ak => (missingKeysOf s environmentId csvData).contains ak.key &&
          ak.environmentId == environmentId) := by
      refine List.mem_filter.mpr ⟨hrow1, ?_⟩
      have hcont : (missingKeysOf s environmentId csvData).contains row.key = true := by
        rw [hrkey]
        exact contains_iff_mem.mpr hmiss
      rw [hcont]
      simp [hrenv]
    have hkm : reconciledKeyMap s environmentId csvData =
        buildKeyMap ((reconciledStore s environmentId csvData).attributeKeys.filter
          (fun ak => (missingKeysOf s environmentId csvData).contains ak.key &&
            ak.environmentId == environmentId))
          (attributeKeyMap0Of s environmentId) := by
      rw [reconciledKeyMap, hne]
      rfl
    have hsome : (mapGet (reconciledKeyMap s environmentId csvData) k).isSome = true := by
      rw [hkm]
      exact mapGet_buildKeyMap_isSome_of_mem ⟨row, hrowf, hrkey⟩
    obtain ⟨kid, hkid⟩ := Option.isSome_iff_exists.mp hsome
    have hkid' := hkid
    rw [hkm] at hkid'
    rcases mapGet_buildKeyMap_origin hkid' with ⟨ak, hakf, hakey, hakid⟩ | hinit
    · have hakmem : ak ∈ (reconciledStore s environmentId csvData).attributeKeys :=
        (List.mem_filter.mp hakf).1
      have henvb := (List.mem_filter.mp hakf).2
      simp only [Bool.and_eq_true, beq_iff_eq] at henvb
      refine ⟨kid, ak, hkid, ?_, hakey, henvb.2⟩
      have hkb := keyById_of_mem_nodup hnd1 hakmem
      rw [hakid] at hkb
      exact hkb
    · exfalso
      have hisn : (mapGet (attributeKeyMap0Of s environmentId) k).isNone = true := by
        have := (List.mem_filter.mp hmiss).2
        simpa using this
      rw [hinit] at hisn
      cases hisn
  · have hsome0 : (mapGet (attributeKeyMap0Of s environmentId) k).isSome = true := by
      by_contra hno
      refine hmiss (List.mem_filter.mpr ⟨hk, ?_⟩)
      simp only [Option.isNone_iff_eq_none]
      cases hmk : mapGet (attributeKeyMap0Of s environmentId) k with
      | none => rfl
      | some i => rw [hmk] at hno; simp at hno
    obtain ⟨kid, hkid0⟩ := Option.isSome_iff_exists.mp hsome0
    have hkid0' := hkid0
    rw [attributeKeyMap0Of] at hkid0'
    rcases mapGet_buildKeyMap_origin hkid0' with ⟨ak, hakf, hakey, hakid⟩ | hinit
    · have hak_s : ak ∈ s.attributeKeys := (List.mem_filter.mp hakf).1
      have henvb := (List.mem_filter.mp hakf).2
      obtain ⟨_, _, _, hnds, _, _, _⟩ := hWF
      have hkbs : keyById s.attributeKeys ak.id = some ak := keyById_of_mem_nodup hnds hak_s
      obtain ⟨tail, htail⟩ := reconciledStore_extends s environmentId csvData
      have hkb1 : keyById (reconciledStore s environmentId csvData).attributeKeys kid =
          some ak := by
        rw [htail, ← hakid, keyById]
        rw [keyById] at hkbs
        exact find?_append_some _ hkbs
      have hkmk : mapGet (reconciledKeyMap s environmentId csvData) k = some kid := by
        rw [reconciledKeyMap]
        split
        · exact hkid0
        · rw [mapGet_buildKeyMap_not_mem, hkid0]
          intro ak' hak' hkeq
          have hcond := (List.mem_filter.mp hak').2
          simp only [Bool.and_eq_true] at hcond
          exact hmiss (hkeq ▸ contains_iff_mem.mp hcond.1)
      exact ⟨kid, ak, hkmk, hkb1, hakey, by simpa using henvb⟩
    · simp [mapGet, List.lookup] at hinit

theorem attrResolves_eq_beq {ks : List AttrKey} {env k : String} {ak0 : AttrKey} {kid0 : Nat}
    (huniq : ∀ k1 ∈ ks, ∀ k2 ∈ ks, k1.environmentId = k2.environmentId →
      k1.key = k2.key → k1 = k2)
    (hkb : keyById ks kid0 = some ak0) (hkey : ak0.key = k) (henv : ak0.environmentId = env) :
    ∀ a : Nat × String, attrResolves ks env k a = (a.1 == kid0) := by
  intro a
  cases hkb' : keyById ks a.1 with
  | none =>
    cases hbeq : a.1 == kid0 with
    | false => simp [attrResolves, hkb', hbeq]
    | true =>
      exfalso
      have ha1 : a.1 = kid0 := by simpa using hbeq
      rw [ha1, hkb] at hkb'
      cases hkb'
  | some ak =>
    have hakmem : ak ∈ ks := List.mem_of_find?_eq_some hkb'
    have hakid : ak.id = a.1 := by simpa using List.find?_some hkb'
    have hak0mem : ak0 ∈ ks := List.mem_of_find?_eq_some hkb
    have hak0id : ak0.id = kid0 := by simpa using List.find?_some hkb
    by_cases heq : ak.key = k ∧ ak.environmentId = env
    · have hak : ak = ak0 :=
        huniq ak hakmem ak0 hak0mem (by rw [heq.2, henv]) (by rw [heq.1, hkey])
      have ha1 : a.1 = kid0 := by rw [← hakid, hak, hak0id]
      simp [attrResolves, ha1, hkb, hkey, henv]
    · have hne : a.1 ≠ kid0 := by
        intro hh
        rw [hh, hkb] at hkb'
        cases hkb'
        exact heq ⟨hkey, henv⟩
      have hb : (a.1 == kid0) = false := by simpa using hne
      rw [hb]
      simp only [attrResolves, hkb']
      cases hand : (ak.key == k && ak.environmentId == env) with
      | false => rfl
      | true =>
        exfalso
        simp only [Bool.and_eq_true, beq_iff_eq] at hand
        exact heq hand

theorem attrValue_none_of_no_key {ks : List AttrKey} {env k : String}
    (hnone : ∀ ak ∈ ks, ¬(ak.key = k ∧ ak.environmentId = env)) (attrs : List (Nat × String)) :
    attrs.find? (attrResolves ks env k) = none := by
  rw [List.find?_eq_none]
  intro a _
  cases hkb : keyById ks a.1 with
  | none => simp [attrResolves, hkb]
  | some ak =>
    have hakmem : ak ∈ ks := List.mem_of_find?_eq_some hkb
    simp only [attrResolves, hkb, Bool.and_eq_true, beq_iff_eq, not_and]
    exact fun h1 h2 => hnone ak hakmem ⟨h1, h2⟩

theorem find?_attrResolves_stable {ks : List AttrKey} (tail : List AttrKey) (env k : String)
    {attrs : List (Nat × String)}
    (hex : ∀ a ∈ attrs, ∃ ak ∈ ks, ak.id = a.1) :
    attrs.find? (attrResolves (ks ++ tail) env k) = attrs.find? (attrResolves ks env k) := by
  refine find?_ext_mem ?_
  intro a ha
  obtain ⟨ak, hak, hid⟩ := hex a ha
  have hsome : (keyById ks a.1).isSome = true := by
    rw [keyById, List.find?_isSome]
    exact ⟨ak, hak, by simp [hid]⟩
  obtain ⟨ak', hak'⟩ := Option.isSome_iff_exists.mp hsome
  have h2 : keyById (ks ++ tail) a.1 = some ak' := by
    rw [keyById] at hak' ⊢
    exact find?_append_some _ hak'
  simp only [attrResolves, hak', h2]

theorem lookupKid_cons_true {a : Nat × String} (t : List (Nat × String)) {kid : Nat}
    (hb : (a.1 == kid) = true) : lookupKid (a :: t) kid = some a.2 := by
  rw [lookupKid, List.find?_cons, hb]
  rfl

theorem lookupKid_cons_false {a : Nat × String} (t : List (Nat × String)) {kid : Nat}
    (hb : (a.1 == kid) = false) : lookupKid (a :: t) kid = lookupKid t kid := by
  rw [lookupKid, lookupKid, List.find?_cons, hb]

theorem lookupKid_map_replace (e : Nat × String) (kid : Nat) :
    ∀ attrs : List (Nat × String),
      lookupKid (attrs.map (fun a => if a.1 == e.1 then (e.1, e.2) else a)) kid =
        if kid = e.1 then (if attrs.any (fun a => a.1 == e.1) then some e.2 else none)
        else lookupKid attrs kid := by
  intro attrs
  induction attrs with
  | nil => by_cases h : kid = e.1 <;> simp [lookupKid, List.find?, h]
  | cons a t ih =>
    rw [List.map_cons]
    by_cases ha : a.1 = e.1
    · have hfa : (if a.1 == e.1 then (e.1, e.2) else a) = (e.1, e.2) := by simp [ha]
      have hany : ((a :: t).any (fun x => x.1 == e.1)) = true := by simp [ha]
      rw [hfa, hany]
      by_cases hk : kid = e.1
      · rw [lookupKid_cons_true _ (by simp [hk]), if_pos hk]
        simp
      · have hb : ((e.1, e.2).1 == kid) = false := by
          simp only [beq_eq_false_iff_ne, ne_eq]
          exact fun hh => hk hh.symm
        have hba : (a.1 == kid) = false := by
          rw [ha]
          simpa using hb
        rw [lookupKid_cons_false _ hb, if_neg hk, lookupKid_cons_false _ hba]
        have := ih
        rw [if_neg hk] at this
        exact this
    · have hfa : (if a.1 == e.1 then (e.1, e.2) else a) = a := by simp [ha]
      have hany : ((a :: t).any (fun x => x.1 == e.1)) = (t.any (fun x => x.1 == e.1)) := by
        simp [List.any_cons, beq_false_of_ne ha]
      rw [hfa, hany]
      cases hb : (a.1 == kid) with
      | true =>
        have hk : ¬kid = e.1 := by
          have : a.1 = kid := by simpa using hb
          rw [← this]
          exact ha
        rw [lookupKid_cons_true _ hb, if_neg hk, lookupKid_cons_true _ hb]
      | false =>
        rw [lookupKid_cons_false _ hb, ih, lookupKid_cons_false _ hb]

theorem lookupKid_upsertOne (attrs : List (Nat × String)) (e : Nat × String) (kid : Nat) :
    lookupKid (upsertOne attrs e) kid =
      if kid = e.1 then some e.2 else lookupKid attrs kid := by
  rw [upsertOne]
  by_cases hc : attrs.any (fun a => a.1 == e.1) = true
  · rw [if_pos hc, lookupKid_map_replace, hc]
    by_cases hk : kid = e.1 <;> simp [hk]
  · rw [if_neg hc]
    by_cases hk : kid = e.1
    · have hf1 : attrs.find? (fun a => a.1 == kid) = none := by
        rw [List.find?_eq_none]
        intro a ha hpa
        refine hc (List.any_eq_true.mpr ⟨a, ha, ?_⟩)
        have : a.1 = kid := by simpa using hpa
        simp [this, hk]
      have hb : (e.1 == kid) = true := by simp [hk]
      rw [if_pos hk, lookupKid, find?_append_none _ hf1, List.find?_cons, hb]
      rfl
    · rw [if_neg hk, lookupKid, lookupKid]
      cases hf : attrs.find? (fun a => a.1 == kid) with
      | some p => rw [find?_append_some _ hf]
      | none =>
        have hb : (e.1 == kid) = false := by
          simp only [beq_eq_false_iff_ne, ne_eq]
          exact fun hh => hk hh.symm
        rw [find?_append_none _ hf, List.find?_cons, hb]
        rfl

theorem lookupKid_upsertAttrs :
    ∀ (entries attrs : List (Nat × String)) (kid : Nat),
      (entries.map Prod.fst).Nodup →
      lookupKid (upsertAttrs attrs entries) kid =
        match lookupKid entries kid with
        | some v => some v
        | none => lookupKid attrs kid := by
  intro entries
  induction entries with
  | nil => intro attrs kid _; rfl
  | cons e t ih =>
    intro attrs kid hnd
    rw [upsertAttrs, List.foldl_cons]
    have hrec := ih (upsertOne attrs e) kid (List.nodup_cons.mp (by simpa using hnd)).2
    rw [upsertAttrs] at hrec
    rw [hrec]
    by_cases hk : kid = e.1
    · have hnone : lookupKid t kid = none := by
        rw [lookupKid, List.find?_eq_none.mpr]
        · rfl
        · intro p hp hpp
          have hp1 : p.1 = kid := by simpa using hpp
          have hin : e.1 ∈ t.map Prod.fst := by
            rw [← hk, ← hp1]
            exact List.mem_map_of_mem Prod.fst hp
          exact (List.nodup_cons.mp (by simpa using hnd)).1 hin
      have hhead : lookupKid (e :: t) kid = some e.2 :=
        lookupKid_cons_true _ (by simp [hk])
      have hup : lookupKid (upsertOne attrs e) kid = some e.2 := by
        rw [lookupKid_upsertOne, if_pos hk]
      rw [hnone, hhead, hup]
    · have hhead : lookupKid (e :: t) kid = lookupKid t kid :=
        lookupKid_cons_false _ (by
          simp only [beq_eq_false_iff_ne, ne_eq]
          exact fun hh => hk hh.symm)
      have hup : lookupKid (upsertOne attrs e) kid = lookupKid attrs kid := by
        rw [lookupKid_upsertOne, if_neg hk]
      rw [hhead, hup]

theorem recordEntries_attrValue {ks : List AttrKey} {km : List (String × Nat)} {env : String} :
    ∀ r : CSVRecord,
      (∀ e ∈ r, ∃ kid ak, mapGet km e.1 = some kid ∧ keyById ks kid = some ak ∧
        ak.key = e.1 ∧ ak.environmentId = env) →
      (r.map Prod.fst).Nodup →
      ∀ k v, ((recordEntries km r).find? (attrResolves ks env k)).map Prod.snd = some v ↔
        (k, v) ∈ r := by
  intro r
  induction r with
  | nil => intro _ _ k v; simp [recordEntries, List.find?]
  | cons e rest ih =>
    intro hcomp hnd k v
    obtain ⟨kid0, ak0, hm, hkb, hkey, henv⟩ := hcomp e (List.mem_cons_self e rest)
    rw [recordEntries, List.map_cons]
    have hhead : ((mapGet km e.1).getD 0, e.2) = (kid0, e.2) := by rw [hm]; rfl
    rw [hhead]
    have ihr := ih (fun e' he' => hcomp e' (List.mem_cons_of_mem _ he'))
      (List.nodup_cons.mp (by simpa using hnd)).2 k v
    rw [recordEntries] at ihr
    by_cases hk : k = e.1
    · have hpred : attrResolves ks env k (kid0, e.2) = true := by
        simp [attrResolves, hkb, hkey, henv, hk]
      rw [List.find?_cons, hpred]
      show some e.2 = some v ↔ (k, v) ∈ e :: rest
      constructor
      · intro hv
        have hv2 : v = e.2 := by simpa using hv.symm
        rw [hv2, hk]
        exact List.mem_cons_self _ _
      · intro hmem
        rcases List.mem_cons.mp hmem with heq | hmemrest
        · rw [← heq]
        · exfalso
          have hkin : k ∈ rest.map Prod.fst := by
            have := List.mem_map_of_mem Prod.fst hmemrest
            simpa using this
          exact (List.nodup_cons.mp (by simpa using hnd)).1 (hk ▸ hkin)
    · have hpred : attrResolves ks env k (kid0, e.2) = false := by
        have hne : (ak0.key == k) = false := by
          rw [hkey]
          simp only [beq_eq_false_iff_ne, ne_eq]
          exact fun hh => hk hh.symm
        simp [attrResolves, hkb, hne]
      rw [List.find?_cons, hpred]
      show Option.map Prod.snd ((rest.map (fun e => ((mapGet km e.1).getD 0, e.2))).find?
        (attrResolves ks env k)) = some v ↔ (k, v) ∈ e :: rest
      rw [ihr]
      constructor
      · exact List.mem_cons_of_mem _
      · intro hmem
        rcases List.mem_cons.mp hmem with heq | hmemrest
        · exfalso
          have : k = e.1 := by rw [← heq]
          exact hk this
        · exact hmemrest

theorem recordEntries_lookupKid {ks : List AttrKey} {km : List (String × Nat)} {env : String} :
    ∀ r : CSVRecord,
      (∀ e ∈ r, ∃ kid ak, mapGet km e.1 = some kid ∧ keyById ks kid = some ak ∧
        ak.key = e.1 ∧ ak.environmentId = env) →
      (r.map Prod.fst).Nodup →
      ∀ k v kid0, (k, v) ∈ r → mapGet km k = some kid0 →
        lookupKid (recordEntries km r) kid0 = some v := by
  intro r
  induction r with
  | nil => intro _ _ k v kid0 h _; cases h
  | cons e rest ih =>
    intro hcomp hnd k v kid0 hmem hkm
    obtain ⟨kide, ake, hme, hkbe, hkeye, henve⟩ := hcomp e (List.mem_cons_self e rest)
    rw [recordEntries, List.map_cons]
    have hhead : ((mapGet km e.1).getD 0, e.2) = (kide, e.2) := by rw [hme]; rfl
    rw [hhead]
    rcases List.mem_cons.mp hmem with heq | hmemrest
    · have hke : k = e.1 := by rw [← heq]
      have hve : v = e.2 := by rw [← heq]
      have hkid : kide = kid0 := by
        rw [hke] at hkm
        rw [hme] at hkm
        simpa using hkm
      rw [lookupKid_cons_true _ (by simp [hkid]), hve]
    · obtain ⟨kid0', ak0', hm', hkb', hkey', henv'⟩ :=
        hcomp (k, v) (List.mem_cons_of_mem _ hmemrest)
      have hkid0' : kid0' = kid0 := by
        rw [hm'] at hkm
        simpa using hkm
      have hkne : k ≠ e.1 := by
        intro hh
        have hkin : k ∈ rest.map Prod.fst := by
          have := List.mem_map_of_mem Prod.fst hmemrest
          simpa using this
        exact (List.nodup_cons.mp (by simpa using hnd)).1 (hh ▸ hkin)
      have hkidne : ((kide, e.2).1 == kid0) = false := by
        simp only [beq_eq_false_iff_ne, ne_eq]
        intro hh
        rw [← hkid0'] at hh
        rw [hh] at hkbe
        rw [hkbe] at hkb'
        cases hkb'
        exact hkne (hkey'.symm.trans hkeye)
      rw [lookupKid_cons_false _ hkidne]
      have hrec := ih (fun e' he' => hcomp e' (List.mem_cons_of_mem _ he'))
        (List.nodup_cons.mp (by simpa using hnd)).2 k v kid0 hmemrest hkm
      rw [recordEntries] at hrec
      exact hrec

theorem recordEntries_kid_nodup {ks : List AttrKey} {km : List (String × Nat)} {env : String} :
    ∀ r : CSVRecord,
      (∀ e ∈ r, ∃ kid ak, mapGet km e.1 = some kid ∧ keyById ks kid = some ak ∧
        ak.key = e.1 ∧ ak.environmentId = env) →
      (r.map Prod.fst).Nodup →
      ((recordEntries km r).map Prod.fst).Nodup := by
  intro r
  induction r with
  | nil => intro _ _; simp [recordEntries]
  | cons e rest ih =>
    intro hcomp hnd
    obtain ⟨kide, ake, hme, hkbe, hkeye, henve⟩ := hcomp e (List.mem_cons_self e rest)
    rw [recordEntries, List.map_cons, List.map_cons, List.nodup_cons]
    constructor
    · intro hin
      obtain ⟨p, hp, hpeq⟩ := List.mem_map.mp hin
      obtain ⟨e', he', hpe⟩ := List.mem_map.mp hp
      obtain ⟨kid', ak', hm', hkb', hkey', henv'⟩ := hcomp e' (List.mem_cons_of_mem _ he')
      have hp1 : p.1 = kid' := by rw [← hpe, hm']; rfl
      have hhead1 : ((mapGet km e.1).getD 0, e.2).1 = kide := by rw [hme]; rfl
      rw [hhead1] at hpeq
      have hkk : kid' = kide := by rw [← hp1, hpeq]
      rw [hkk, hkbe] at hkb'
      cases hkb'
      have : e.1 ∈ rest.map Prod.fst := by
        rw [← hkeye, hkey']
        exact List.mem_map_of_mem Prod.fst he'
      exact (List.nodup_cons.mp (by simpa using hnd)).1 this
    · exact ih (fun e' he' => hcomp e' (List.mem_cons_of_mem _ he'))
        (List.nodup_cons.mp (by simpa using hnd)).2

theorem recordEntries_lookupKid_none {ks : List AttrKey} {km : List (String × Nat)}
    {env k : String} {kid0 : Nat} {ak0 : AttrKey} :
    ∀ r : CSVRecord,
      (∀ e ∈ r, ∃ kid ak, mapGet km e.1 = some kid ∧ keyById ks kid = some ak ∧
        ak.key = e.1 ∧ ak.environmentId = env) →
      k ∉ r.map Prod.fst →
      keyById ks kid0 = some ak0 → ak0.key = k →
      lookupKid (recordEntries km r) kid0 = none := by
  intro r
  induction r with
  | nil => intro _ _ _ _; rfl
  | cons e rest ih =>
    intro hcomp hknot hkb0 hkey0
    obtain ⟨kide, ake, hme, hkbe, hkeye, henve⟩ := hcomp e (List.mem_cons_self e rest)
    rw [recordEntries, List.map_cons]
    have hhead : ((mapGet km e.1).getD 0, e.2) = (kide, e.2) := by rw [hme]; rfl
    rw [hhead]
    have hne : ((kide, e.2).1 == kid0) = false := by
      simp only [beq_eq_false_iff_ne, ne_eq]
      intro hh
      rw [hh, hkb0] at hkbe
      cases hkbe
      refine hknot ?_
      rw [← hkey0, hkeye]
      exact List.mem_cons_self _ _
    rw [lookupKid_cons_false _ hne]
    have hrec := ih (fun e' he' => hcomp e' (List.mem_cons_of_mem _ he'))
      (fun hh => hknot (List.mem_cons_of_mem _ hh)) hkb0 hkey0
    rw [recordEntries] at hrec
    exact hrec

theorem lookup_none_not_mem {α : Type} {r : List (String × α)} {k : String}
    (h : r.lookup k = none) : k ∉ r.map Prod.fst := by
  induction r with
  | nil => simp
  | cons e t ih =>
    intro hin
    rcases List.mem_cons.mp hin with heq | hmem
    · rw [List.map_cons] at hin
      have hb : (k == e.1) = true := by simp [heq]
      rw [List.lookup, hb] at h
      cases h
    · by_cases hk : k = e.1
      · have hb : (k == e.1) = true := by simp [hk]
        rw [List.lookup, hb] at h
        cases h
      · have hb : (k == e.1) = false := beq_false_of_ne hk
        rw [List.lookup, hb] at h
        exact ih h hmem

theorem lookup_eq_some_of_mem_nodup {α : Type} {r : List (String × α)}
    (hnd : (r.map Prod.fst).Nodup) {k : String} {v : α} (h : (k, v) ∈ r) :
    r.lookup k = some v := by
  induction r with
  | nil => cases h
  | cons e t ih =>
    rcases List.mem_cons.mp h with heq | hmem
    · rw [← heq, List.lookup]
      simp
    · have hk : k ≠ e.1 := by
        intro hh
        have hkin : k ∈ t.map Prod.fst := by
          have := List.mem_map_of_mem Prod.fst hmem
          simpa using this
        exact (List.nodup_cons.mp (by simpa using hnd)).1 (hh ▸ hkin)
      rw [List.lookup, beq_false_of_ne hk]
      exact ih (List.nodup_cons.mp (by simpa using hnd)).2 hmem

theorem find?Resolves_entries {ks : List AttrKey} {km : List (String × Nat)} {env : String}
    {r : CSVRecord}
    (hcompr : ∀ e ∈ r, ∃ kid ak, mapGet km e.1 = some kid ∧ keyById ks kid = some ak ∧
      ak.key = e.1 ∧ ak.environmentId = env)
    (hndr : (r.map Prod.fst).Nodup) (k : String) :
    ((recordEntries km r).find? (attrResolves ks env k)).map Prod.snd =
      match r.lookup k with
      | some v => some v
      | none => none := by
  cases hu : r.lookup k with
  | some v => exact (recordEntries_attrValue r hcompr hndr k v).mpr (lookup_mem hu)
  | none =>
    cases hf : ((recordEntries km r).find? (attrResolves ks env k)).map Prod.snd with
    | none => rfl
    | some w =>
      exfalso
      have := (recordEntries_attrValue r hcompr hndr k w).mp hf
      have hmem : k ∈ r.map Prod.fst := by
        have := List.mem_map_of_mem Prod.fst this
        simpa using this
      exact lookup_none_not_mem hu hmem

theorem find?Resolves_upsert {ks : List AttrKey} {km : List (String × Nat)} {env : String}
    {r : CSVRecord}
    (hnd1 : (ks.map AttrKey.id).Nodup)
    (huniq1 : ∀ k1 ∈ ks, ∀ k2 ∈ ks, k1.environmentId = k2.environmentId →
      k1.key = k2.key → k1 = k2)
    (hcompr : ∀ e ∈ r, ∃ kid ak, mapGet km e.1 = some kid ∧ keyById ks kid = some ak ∧
      ak.key = e.1 ∧ ak.environmentId = env)
    (hndr : (r.map Prod.fst).Nodup) (A : List (Nat × String)) (k : String) :
    ((upsertAttrs A (recordEntries km r)).find? (attrResolves ks env k)).map Prod.snd =
      match r.lookup k with
      | some v => some v
      | none => (A.find? (attrResolves ks env k)).map Prod.snd := by
  have hEnodup : ((recordEntries km r).map Prod.fst).Nodup :=
    recordEntries_kid_nodup r hcompr hndr
  by_cases hex : ∃ ak ∈ ks, ak.key = k ∧ ak.environmentId = env
  · obtain ⟨ak0, hak0, hkey0, henv0⟩ := hex
    have hkb0 : keyById ks ak0.id = some ak0 := keyById_of_mem_nodup hnd1 hak0
    rw [find?_ext (attrResolves_eq_beq huniq1 hkb0 hkey0 henv0)]
    show lookupKid (upsertAttrs A (recordEntries km r)) ak0.id = _
    rw [lookupKid_upsertAttrs _ _ _ hEnodup]
    cases hu : r.lookup k with
    | some v =>
      obtain ⟨kid', ak', hm', hkb', hkey', henv'⟩ := hcompr (k, v) (lookup_mem hu)
      have hak' : ak' = ak0 := huniq1 ak' (List.mem_of_find?_eq_some hkb') ak0 hak0
        (henv'.trans henv0.symm) (hkey'.trans hkey0.symm)
      have hkid' : kid' = ak0.id := by
        have : ak'.id = kid' := by simpa using List.find?_some hkb'
        rw [← this, hak']
      rw [recordEntries_lookupKid r hcompr hndr k v ak0.id (lookup_mem hu) (hkid' ▸ hm')]
    | none =>
      have hknot : k ∉ r.map Prod.fst := lookup_none_not_mem hu
      rw [recordEntries_lookupKid_none r hcompr hknot hkb0 hkey0]
      rw [lookupKid, ← find?_ext (attrResolves_eq_beq huniq1 hkb0 hkey0 henv0) A]
  · have hnone : ∀ ak ∈ ks, ¬(ak.key = k ∧ ak.environmentId = env) :=
      fun ak hak hcon => hex ⟨ak, hak, hcon.1, hcon.2⟩
    rw [attrValue_none_of_no_key hnone]
    cases hu : r.lookup k with
    | some v =>
      exfalso
      obtain ⟨kid', ak', hm', hkb', hkey', henv'⟩ := hcompr (k, v) (lookup_mem hu)
      exact hnone ak' (List.mem_of_find?_eq_some hkb') ⟨hkey', henv'⟩
    | none =>
      rw [attrValue_none_of_no_key hnone]

theorem validate_record_nodup {csvData : List CSVRecord} {am : List (String × String)}
    (hval : validateCSVInputs csvData am = true) {r : CSVRecord} (hr : r ∈ csvData) :
    (r.map Prod.fst).Nodup := by
  rw [validateCSVInputs] at hval
  simp only [Bool.and_eq_true, List.all_eq_true] at hval
  have := hval.1.2 r hr
  simpa using this

theorem record_col_mem_csvKeys {csvData : List CSVRecord} {r : CSVRecord} {e : String × String}
    (hr : r ∈ csvData) (he : e ∈ r) : e.1 ∈ csvKeysOf csvData := by
  rw [csvKeysOf, mem_uniq]
  exact List.mem_flatMap.mpr ⟨r, hr, List.mem_map_of_mem _ he⟩

theorem createContactsFromCSV_ok_elim {csvData : List CSVRecord} {environmentId : String}
    {act : DupAction} {am : List (String × String)} {s : Store} {out : List Contact}
    {s' : Store}
    (hrun : createContactsFromCSV csvData environmentId act am s = (Except.ok out, s')) :
    validateCSVInputs csvData am = true ∧
    out = (processAll environmentId act (emailMapOf s environmentId csvData)
      (reconciledKeyMap s environmentId csvData) csvData
      (reconciledStore s environmentId csvData)).1.reduceOption ∧
    s' = (processAll environmentId act (emailMapOf s environmentId csvData)
      (reconciledKeyMap s environmentId csvData) csvData
      (reconciledStore s environmentId csvData)).2 := by
  by_cases hval : validateCSVInputs csvData am = true
  · rw [createContactsFromCSV, hval] at hrun
    simp only [if_true] at hrun
    cases hcol : (if (csvUserIdsOf csvData).isEmpty then []
        else userIdCollisions s environmentId (csvUserIdsOf csvData)) with
    | cons v t => rw [hcol] at hrun; cases hrun
    | nil =>
      rw [hcol] at hrun
      refine ⟨hval, ?_, ?_⟩
      · have := congrArg Prod.fst hrun
        simpa using this.symm
      · have := congrArg Prod.snd hrun
        simpa using this.symm
  · rw [createContactsFromCSV, if_neg (by simp [hval])] at hrun
    cases hrun

theorem replaceContact_mem {s : Store} {c' cc : Contact}
    (h : cc ∈ (replaceContact s c').contacts) : cc = c' ∨ cc ∈ s.contacts := by
  rw [replaceContact] at h
  obtain ⟨x, hx, hfx⟩ := List.mem_map.mp h
  by_cases hxid : x.id = c'.id
  · left
    have hfi : (if x.id == c'.id then c' else x) = c' := by simp [hxid]
    rw [← hfx, hfi]
  · right
    have hfi : (if x.id == c'.id then c' else x) = x := by simp [hxid]
    rw [← hfx, hfi]
    exact hx

theorem userId_head_mem {r : CSVRecord} (rs : List CSVRecord) {v : String}
    (hv : userIdOf r = v) (hne : v ≠ "") :
    v ∈ (((r :: rs).map userIdOf).filter (fun u => u ≠ "")) := by
  rw [List.map_cons]
  exact List.mem_filter.mpr ⟨by rw [hv]; exact List.mem_cons_self _ _, by simpa using hne⟩

theorem userId_tail_subset {r : CSVRecord} {rs : List CSVRecord} {u : String}
    (h : u ∈ ((rs.map userIdOf).filter (fun x => x ≠ ""))) :
    u ∈ (((r :: rs).map userIdOf).filter (fun x => x ≠ "")) := by
  obtain ⟨hmem, hpred⟩ := List.mem_filter.mp h
  exact List.mem_filter.mpr ⟨by rw [List.map_cons]; exact List.mem_cons_of_mem _ hmem, hpred⟩

theorem userId_head_not_tail {r : CSVRecord} {rs : List CSVRecord} {v : String}
    (hndU : (((r :: rs).map userIdOf).filter (fun u => u ≠ "")).Nodup)
    (hv : userIdOf r = v) (hne : v ≠ "") :
    v ∉ ((rs.map userIdOf).filter (fun u => u ≠ "")) := by
  rw [List.map_cons, List.filter_cons] at hndU
  have hp : (decide (userIdOf r ≠ "")) = true := by
    rw [hv]
    simpa using hne
  rw [hp] at hndU
  simp only [if_true] at hndU
  have := (List.nodup_cons.mp hndU).1
  rw [hv] at this
  exact this

theorem upsert_attrValue_userId {ks : List AttrKey} {km : List (String × Nat)}
    {environmentId : String} {r : CSVRecord}
    (hnd1 : (ks.map AttrKey.id).Nodup)
    (huniq1 : ∀ k1 ∈ ks, ∀ k2 ∈ ks, k1.environmentId = k2.environmentId →
      k1.key = k2.key → k1 = k2)
    (hcompr : ∀ e ∈ r, ∃ kid ak, mapGet km e.1 = some kid ∧ keyById ks kid = some ak ∧
      ak.key = e.1 ∧ ak.environmentId = environmentId)
    (hndr : (r.map Prod.fst).Nodup)
    (c : Contact) (hcenv : c.environmentId = environmentId) :
    attrValue ks { c with attributes := upsertAttrs c.attributes (recordEntries km r) }
      "userId" =
      match r.lookup "userId" with
      | some v => some v
      | none => attrValue ks c "userId" := by
  rw [attrValue]
  have henv' : ({ c with attributes := upsertAttrs c.attributes (recordEntries km r) } :
      Contact).environmentId = environmentId := hcenv
  rw [henv']
  show ((upsertAttrs c.attributes (recordEntries km r)).find?
    (attrResolves ks environmentId "userId")).map Prod.snd = _
  rw [find?Resolves_upsert hnd1 huniq1 hcompr hndr]
  cases r.lookup "userId" with
  | some v => rfl
  | none =>
    show (c.attributes.find? (attrResolves ks environmentId "userId")).map Prod.snd =
      attrValue ks c "userId"
    rw [attrValue, hcenv]

theorem replace_attrValue_userId {ks : List AttrKey} {km : List (String × Nat)}
    {environmentId : String} {r : CSVRecord}
    (hcompr : ∀ e ∈ r, ∃ kid ak, mapGet km e.1 = some kid ∧ keyById ks kid = some ak ∧
      ak.key = e.1 ∧ ak.environmentId = environmentId)
    (hndr : (r.map Prod.fst).Nodup)
    (c : Contact) (hcenv : c.environmentId = environmentId) :
    attrValue ks { c with attributes := recordEntries km r } "userId" =
      match r.lookup "userId" with
      | some v => some v
      | none => none := by
  rw [attrValue]
  have henv' : ({ c with attributes := recordEntries km r } : Contact).environmentId =
      environmentId := hcenv
  rw [henv']
  show ((recordEntries km r).find? (attrResolves ks environmentId "userId")).map Prod.snd = _
  exact find?Resolves_entries hcompr hndr "userId"

theorem new_attrValue_userId {ks : List AttrKey} {km : List (String × Nat)}
    {environmentId : String} {r : CSVRecord}
    (hcompr : ∀ e ∈ r, ∃ kid ak, mapGet km e.1 = some kid ∧ keyById ks kid = some ak ∧
      ak.key = e.1 ∧ ak.environmentId = environmentId)
    (hndr : (r.map Prod.fst).Nodup) (i : Nat) :
    attrValue ks (⟨i, environmentId, recordEntries km r⟩ : Contact) "userId" =
      match r.lookup "userId" with
      | some v => some v
      | none => none := by
  rw [attrValue]
  show ((recordEntries km r).find? (attrResolves ks environmentId "userId")).map Prod.snd = _
  exact find?Resolves_entries hcompr hndr "userId"

theorem userIdOf_eq_of_lookup {r : CSVRecord} {v : String} (hu : r.lookup "userId" = some v) :
    userIdOf r = v := by
  rw [userIdOf, fieldOf, hu]
  rfl

theorem processRecord_userId_inv_step (environmentId : String) (act : DupAction)
    (em : List (String × Contact)) (km : List (String × Nat)) (ks : List AttrKey)
    (hnd1 : (ks.map AttrKey.id).Nodup)
    (huniq1 : ∀ k1 ∈ ks, ∀ k2 ∈ ks, k1.environmentId = k2.environmentId →
      k1.key = k2.key → k1 = k2)
    (r : CSVRecord) (rs : List CSVRecord) (s₂ : Store)
    (hcompr : ∀ e ∈ r, ∃ kid ak, mapGet km e.1 = some kid ∧ keyById ks kid = some ak ∧
      ak.key = e.1 ∧ ak.environmentId = environmentId)
    (hndr : (r.map Prod.fst).Nodup)
    (hndU : (((r :: rs).map userIdOf).filter (fun u => u ≠ "")).Nodup)
    (h3 : ∀ c ∈ s₂.contacts, c.id < s₂.nextContactId)
    (h1 : ∀ c1 ∈ s₂.contacts, ∀ c2 ∈ s₂.contacts, c1.environmentId = environmentId →
      c2.environmentId = environmentId → c1.id ≠ c2.id →
      attrValue ks c1 "userId" = attrValue ks c2 "userId" →
      (attrValue ks c1 "userId").getD "" = "")
    (h2 : ∀ c ∈ s₂.contacts, c.environmentId = environmentId →
      ∀ u, attrValue ks c "userId" = some u → u ≠ "" →
        u ∉ (((r :: rs).map userIdOf).filter (fun x => x ≠ ""))) :
    (∀ c ∈ (processRecord environmentId act em km s₂ r).2.contacts,
      c.id < (processRecord environmentId act em km s₂ r).2.nextContactId) ∧
    (∀ c1 ∈ (processRecord environmentId act em km s₂ r).2.contacts,
      ∀ c2 ∈ (processRecord environmentId act em km s₂ r).2.contacts,
      c1.environmentId = environmentId → c2.environmentId = environmentId → c1.id ≠ c2.id →
      attrValue ks c1 "userId" = attrValue ks c2 "userId" →
      (attrValue ks c1 "userId").getD "" = "") ∧
    (∀ c ∈ (processRecord environmentId act em km s₂ r).2.contacts,
      c.environmentId = environmentId →
      ∀ u, attrValue ks c "userId" = some u → u ≠ "" →
        u ∉ ((rs.map userIdOf).filter (fun x => x ≠ ""))) := by
  have h2' : ∀ c ∈ s₂.contacts, c.environmentId = environmentId →
      ∀ u, attrValue ks c "userId" = some u → u ≠ "" →
        u ∉ ((rs.map userIdOf).filter (fun x => x ≠ "")) :=
    fun c hc henv u hu hne hmem => h2 c hc henv u hu hne (userId_tail_subset hmem)
  by_cases he : emailOf r = ""
  · rw [processRecord_no_email he]
    exact ⟨h3, h1, h2'⟩
  · rw [processRecord, if_neg he]
    cases hget : mapGet em (emailOf r) with
    | none =>
      simp only [hget]
      refine ⟨?_, ?_, ?_⟩
      · intro c hc
        rcases List.mem_append.mp hc with hold | hnew
        · exact Nat.lt_succ_of_lt (h3 c hold)
        · rw [List.mem_singleton.mp hnew]
          exact Nat.lt_succ_self _
      · intro c1 hc1 c2 hc2 henv1 henv2 hne heqv
        rcases List.mem_append.mp hc1 with ho1 | hn1 <;>
          rcases List.mem_append.mp hc2 with ho2 | hn2
        · exact h1 c1 ho1 c2 ho2 henv1 henv2 hne heqv
        · rw [List.mem_singleton.mp hn2] at heqv
          rw [new_attrValue_userId hcompr hndr] at heqv
          cases hu : r.lookup "userId" with
          | some v =>
            rw [hu] at heqv
            by_cases hv : v = ""
            · rw [heqv]
              simp [hv]
            · exfalso
              exact h2 c1 ho1 henv1 v heqv hv
                (userId_head_mem rs (userIdOf_eq_of_lookup hu) hv)
          | none =>
            rw [hu] at heqv
            rw [heqv]
            rfl
        · rw [List.mem_singleton.mp hn1]
          rw [List.mem_singleton.mp hn1] at heqv
          rw [new_attrValue_userId hcompr hndr] at heqv ⊢
          cases hu : r.lookup "userId" with
          | some v =>
            rw [hu] at heqv
            by_cases hv : v = ""
            · simp [hv]
            · exfalso
              exact h2 c2 ho2 henv2 v heqv.symm hv
                (userId_head_mem rs (userIdOf_eq_of_lookup hu) hv)
          | none => rfl
        · exfalso
          rw [List.mem_singleton.mp hn1, List.mem_singleton.mp hn2] at hne
          exact hne rfl
      · intro c hc henvc u hu hne' hmem
        rcases List.mem_append.mp hc with hold | hnew
        · exact h2' c hold henvc u hu hne' hmem
        · rw [List.mem_singleton.mp hnew] at hu
          rw [new_attrValue_userId hcompr hndr] at hu
          cases hulk : r.lookup "userId" with
          | some v =>
            rw [hulk] at hu
            have hv : u = v := by simpa using hu.symm
            rw [hv] at hne' hmem
            exact userId_head_not_tail hndU (userIdOf_eq_of_lookup hulk) hne' hmem
          | none =>
            rw [hulk] at hu
            exact Option.noConfusion hu
    | some ec =>
      simp only [hget]
      cases act with
      | skip => exact ⟨h3, h1, h2'⟩
      | update =>
        cases hfind : contactById s₂ ec.id with
        | none => simp only [hfind]; exact ⟨h3, h1, h2'⟩
        | some c =>
          simp only [hfind]
          have hcmem : c ∈ s₂.contacts := List.mem_of_find?_eq_some hfind
          refine ⟨?_, ?_, ?_⟩
          · intro cc hcc
            rcases replaceContact_mem hcc with rfl | hccold
            · exact h3 c hcmem
            · exact h3 cc hccold
          · intro c1 hc1 c2 hc2 henv1 henv2 hne heqv
            rcases replaceContact_mem hc1 with rfl | ho1 <;>
              rcases replaceContact_mem hc2 with rfl | ho2
            · exact absurd rfl hne
            · have hcenv : c.environmentId = environmentId := henv1
              rw [upsert_attrValue_userId hnd1 huniq1 hcompr hndr c hcenv] at heqv ⊢
              cases hu : r.lookup "userId" with
              | some v =>
                rw [hu] at heqv
                by_cases hv : v = ""
                · simp [hv]
                · exfalso
                  exact h2 c2 ho2 henv2 v heqv.symm hv
                    (userId_head_mem rs (userIdOf_eq_of_lookup hu) hv)
              | none =>
                rw [hu] at heqv
                exact h1 c hcmem c2 ho2 hcenv henv2 hne heqv
            · have hcenv : c.environmentId = environmentId := henv2
              rw [upsert_attrValue_userId hnd1 huniq1 hcompr hndr c hcenv] at heqv
              cases hu : r.lookup "userId" with
              | some v =>
                rw [hu] at heqv
                by_cases hv : v = ""
                · rw [heqv]
                  simp [hv]
                · exfalso
                  exact h2 c1 ho1 henv1 v heqv hv
                    (userId_head_mem rs (userIdOf_eq_of_lookup hu) hv)
              | none =>
                rw [hu] at heqv
                exact h1 c1 ho1 c hcmem henv1 hcenv hne heqv
            · exact h1 c1 ho1 c2 ho2 henv1 henv2 hne heqv
          · intro cc hcc henvcc u hu hne' hmem
            rcases replaceContact_mem hcc with rfl | hccold
            · have hcenv : c.environmentId = environmentId := henvcc
              rw [upsert_attrValue_userId hnd1 huniq1 hcompr hndr c hcenv] at hu
              cases hulk : r.lookup "userId" with
              | some v =>
                rw [hulk] at hu
                have hv : u = v := by simpa using hu.symm
                rw [hv] at hne' hmem
                exact userId_head_not_tail hndU (userIdOf_eq_of_lookup hulk) hne' hmem
              | none =>
                rw [hulk] at hu
                exact h2' c hcmem hcenv u hu hne' hmem
            · exact h2' cc hccold henvcc u hu hne' hmem
      | overwrite =>
        cases hfind : contactById s₂ ec.id with
        | none => simp only [hfind]; exact ⟨h3, h1, h2'⟩
        | some c =>
          simp only [hfind]
          have hcmem : c ∈ s₂.contacts := List.mem_of_find?_eq_some hfind
          refine ⟨?_, ?_, ?_⟩
          · intro cc hcc
            rcases replaceContact_mem hcc with rfl | hccold
            · exact h3 c hcmem
            · exact h3 cc hccold
          · intro c1 hc1 c2 hc2 henv1 henv2 hne heqv
            rcases replaceContact_mem hc1 with rfl | ho1 <;>
              rcases replaceContact_mem hc2 with rfl | ho2
            · exact absurd rfl hne
            · have hcenv : c.environmentId = environmentId := henv1
              rw [replace_attrValue_userId hcompr hndr c hcenv] at heqv ⊢
              cases hu : r.lookup "userId" with
              | some v =>
                rw [hu] at heqv
                by_cases hv : v = ""
                · simp [hv]
                · exfalso
                  exact h2 c2 ho2 henv2 v heqv.symm hv
                    (userId_head_mem rs (userIdOf_eq_of_lookup hu) hv)
              | none => rfl
            · have hcenv : c.environmentId = environmentId := henv2
              rw [replace_attrValue_userId hcompr hndr c hcenv] at heqv
              cases hu : r.lookup "userId" with
              | some v =>
                rw [hu] at heqv
                by_cases hv : v = ""
                · rw [heqv]
                  simp [hv]
                · exfalso
                  exact h2 c1 ho1 henv1 v heqv hv
                    (userId_head_mem rs (userIdOf_eq_of_lookup hu) hv)
              | none =>
                rw [hu] at heqv
                rw [heqv]
                rfl
            · exact h1 c1 ho1 c2 ho2 henv1 henv2 hne heqv
          · intro cc hcc henvcc u hu hne' hmem
            rcases replaceContact_mem hcc with rfl | hccold
            · have hcenv : c.environmentId = environmentId := henvcc
              rw [replace_attrValue_userId hcompr hndr c hcenv] at hu
              cases hulk : r.lookup "userId" with
              | some v =>
                rw [hulk] at hu
                have hv : u = v := by simpa using hu.symm
                rw [hv] at hne' hmem
                exact userId_head_not_tail hndU (userIdOf_eq_of_lookup hulk) hne' hmem
              | none =>
                rw [hulk] at hu
                exact Option.noConfusion hu
            · exact h2' cc hccold henvcc u hu hne' hmem

theorem processAll_cons_snd (environmentId : String) (act : DupAction)
    (em : List (String × Contact)) (km : List (String × Nat)) (r : CSVRecord)
    (rs : List CSVRecord) (s : Store) :
    (processAll environmentId act em km (r :: rs) s).2 =
      (processAll environmentId act em km rs (processRecord environmentId act em km s r).2).2 :=
  rfl

theorem filter_userId_cons_nodup {r : CSVRecord} {rs : List CSVRecord}
    (h : (((r :: rs).map userIdOf).filter (fun u => u ≠ "")).Nodup) :
    ((rs.map userIdOf).filter (fun u => u ≠ "")).Nodup := by
  rw [List.map_cons, List.filter_cons] at h
  split at h
  · exact h.of_cons
  · exact h

theorem processAll_userId_inv (environmentId : String) (act : DupAction)
    (em : List (String × Contact)) (km : List (String × Nat)) (ks : List AttrKey)
    (hnd1 : (ks.map AttrKey.id).Nodup)
    (huniq1 : ∀ k1 ∈ ks, ∀ k2 ∈ ks, k1.environmentId = k2.environmentId →
      k1.key = k2.key → k1 = k2)
    (recs : List CSVRecord) :
    ∀ s₂ : Store,
      (∀ r ∈ recs, ∀ e ∈ r, ∃ kid ak, mapGet km e.1 = some kid ∧ keyById ks kid = some ak ∧
        ak.key = e.1 ∧ ak.environmentId = environmentId) →
      (∀ r ∈ recs, (r.map Prod.fst).Nodup) →
      ((recs.map userIdOf).filter (fun u => u ≠ "")).Nodup →
      (∀ c ∈ s₂.contacts, c.id < s₂.nextContactId) →
      (∀ c1 ∈ s₂.contacts, ∀ c2 ∈ s₂.contacts, c1.environmentId = environmentId →
        c2.environmentId = environmentId → c1.id ≠ c2.id →
        attrValue ks c1 "userId" = attrValue ks c2 "userId" →
        (attrValue ks c1 "userId").getD "" = "") →
      (∀ c ∈ s₂.contacts, c.environmentId = environmentId →
        ∀ u, attrValue ks c "userId" = some u → u ≠ "" →
          u ∉ ((recs.map userIdOf).filter (fun x => x ≠ ""))) →
      ∀ c1 ∈ (processAll environmentId act em km recs s₂).2.contacts,
        ∀ c2 ∈ (processAll environmentId act em km recs s₂).2.contacts,
        c1.environmentId = environmentId → c2.environmentId = environmentId → c1.id ≠ c2.id →
        attrValue ks c1 "userId" = attrValue ks c2 "userId" →
        (attrValue ks c1 "userId").getD "" = "" := by
  induction recs with
  | nil => intro s₂ _ _ _ _ h1 _; exact h1
  | cons r rs ih =>
    intro s₂ hcomp hndr hndU h3 h1 h2
    rw [processAll_cons_snd]
    obtain ⟨h3', h1', h2'⟩ := processRecord_userId_inv_step environmentId act em km ks hnd1
      huniq1 r rs s₂ (hcomp r (List.mem_cons_self r rs)) (hndr r (List.mem_cons_self r rs))
      hndU h3 h1 h2
    exact ih (processRecord environmentId act em km s₂ r).2
      (fun r' hr' => hcomp r' (List.mem_cons_of_mem r hr'))
      (fun r' hr' => hndr r' (List.mem_cons_of_mem r hr'))
      (filter_userId_cons_nodup hndU) h3' h1' h2'

theorem no_collisions_userId_fresh {csvData : List CSVRecord} {environmentId : String}
    {s : Store}
    (hcol : (if (csvUserIdsOf csvData).isEmpty then []
      else userIdCollisions s environmentId (csvUserIdsOf csvData)) = []) :
    ∀ c ∈ s.contacts, c.environmentId = environmentId →
      ∀ u, attrValue s.attributeKeys c "userId" = some u → u ≠ "" →
        u ∉ ((csvData.map userIdOf).filter (fun x => x ≠ "")) := by
  intro c hc henv u hu hune hmem
  have humem : u ∈ csvUserIdsOf csvData := by
    rw [csvUserIdsOf, mem_uniq]
    exact hmem
  have hne : (csvUserIdsOf csvData).isEmpty = false := by
    cases h : csvUserIdsOf csvData with
    | nil => rw [h] at humem; cases humem
    | cons x t => rfl
  rw [hne] at hcol
  simp only [Bool.false_eq_true, if_false] at hcol
  rw [attrValue, henv] at hu
  obtain ⟨a, hfa⟩ : ∃ a, c.attributes.find?
      (attrResolves s.attributeKeys environmentId "userId") = some a := by
    cases hf : c.attributes.find? (attrResolves s.attributeKeys environmentId "userId") with
    | none => rw [hf] at hu; cases hu
    | some a => exact ⟨a, rfl⟩
  rw [hfa] at hu
  have ha2 : a.2 = u := by simpa using hu
  have hamem : a ∈ c.attributes := List.mem_of_find?_eq_some hfa
  have hres : attrResolves s.attributeKeys environmentId "userId" a = true :=
    List.find?_some hfa
  have hcmem : a.2 ∈ userIdCollisions s environmentId (csvUserIdsOf csvData) := by
    rw [userIdCollisions]
    refine List.mem_map_of_mem _ (List.mem_filter.mpr ⟨List.mem_flatMap.mpr ⟨c, hc, hamem⟩, ?_⟩)
    have hcon : (csvUserIdsOf csvData).contains a.2 = true :=
      contains_iff_mem.mpr (ha2 ▸ humem)
    rw [hres, hcon]
    rfl
  rw [hcol] at hcmem
  cases hcmem

theorem attrValue_append_stable {ks : List AttrKey} (tail : List AttrKey) {c : Contact}
    (hex : ∀ a ∈ c.attributes, ∃ ak ∈ ks, ak.id = a.1) (name : String) :
    attrValue (ks ++ tail) c name = attrValue ks c name := by
  rw [attrValue, attrValue, find?_attrResolves_stable tail c.environmentId name hex]

theorem reconciledStore_keys_extends (s : Store) (environmentId : String)
    (csvData : List CSVRecord) :
    ∃ tail, (reconciledStore s environmentId csvData).attributeKeys =
      s.attributeKeys ++ tail := by
  rw [reconciledStore]
  split
  · exact ⟨[], by simp⟩
  · exact createMissingKeys_extends environmentId _ s

/-! ## Claim theorems -/

/-- C9: after input validation, the `attributeMap` argument has no
influence on `createContactsFromCSV`: with the same records,
environment, policy and store, two different valid attribute maps
produce identical results and identical final stores (column names are
used directly as attribute-key names). -/
theorem attributeMap_irrelevant (csvData : List CSVRecord) (environmentId : String)
    (act : DupAction) (m1 m2 : List (String × String)) (s : Store)
    (h1 : validateCSVInputs csvData m1 = true) (h2 : validateCSVInputs csvData m2 = true) :
    createContactsFromCSV csvData environmentId act m1 s =
      createContactsFromCSV csvData environmentId act m2 s := by
  rw [createContactsFromCSV, createContactsFromCSV, h1, h2]

theorem attributeMap_irrelevant_witness :
    validateCSVInputs [[("email", "a")]] [("col", "key")] = true ∧
    validateCSVInputs [[("email", "a")]] [] = true ∧
    createContactsFromCSV [[("email", "a")]] "e" DupAction.skip [("col", "key")] ⟨[], [], 0, 0⟩ =
      createContactsFromCSV [[("email", "a")]] "e" DupAction.skip [] ⟨[], [], 0, 0⟩ :=
  ⟨by decide, by decide,
    attributeMap_irrelevant [[("email", "a")]] "e" DupAction.skip [("col", "key")] []
      ⟨[], [], 0, 0⟩ (by decide) (by decide)⟩

/-- C7: a record lacking an email value (absent field or empty string)
creates or modifies no contact and contributes no element to the
returned sequence, under every duplicate-resolution policy: its own
per-record step is a no-op, and removing it from the batch changes
neither the final store of the per-record phase nor the aggregated
output. -/
theorem email_less_record_dropped (environmentId : String) (act : DupAction)
    (em : List (String × Contact)) (km : List (String × Nat))
    (pre post : List CSVRecord) (r : CSVRecord) (s : Store)
    (h : emailOf r = "") :
    processRecord environmentId act em km s r = (none, s) ∧
    (processAll environmentId act em km (pre ++ r :: post) s).2 =
      (processAll environmentId act em km (pre ++ post) s).2 ∧
    ((processAll environmentId act em km (pre ++ r :: post) s).1).reduceOption =
      ((processAll environmentId act em km (pre ++ post) s).1).reduceOption := by
  refine ⟨processRecord_no_email h, ?_, ?_⟩ <;>
  · rw [processAll_append, processAll_append]
    simp [processAll, processRecord_no_email h, List.reduceOption_append]

theorem email_less_record_dropped_witness :
    emailOf [("plan", "pro")] = "" ∧
    (processRecord "e" DupAction.update [] [] ⟨[], [], 0, 0⟩ [("plan", "pro")] =
        (none, (⟨[], [], 0, 0⟩ : Store)) ∧
      (processAll "e" DupAction.update [] [] ([[("email", "a")]] ++ [("plan", "pro")] ::
          [[("email", "b")]]) ⟨[], [], 0, 0⟩).2 =
        (processAll "e" DupAction.update [] [] ([[("email", "a")]] ++ [[("email", "b")]])
          ⟨[], [], 0, 0⟩).2 ∧
      ((processAll "e" DupAction.update [] [] ([[("email", "a")]] ++ [("plan", "pro")] ::
          [[("email", "b")]]) ⟨[], [], 0, 0⟩).1).reduceOption =
        ((processAll "e" DupAction.update [] [] ([[("email", "a")]] ++ [[("email", "b")]])
          ⟨[], [], 0, 0⟩).1).reduceOption) :=
  ⟨by decide,
    email_less_record_dropped "e" DupAction.update [] [] [[("email", "a")]] [[("email", "b")]]
      [("plan", "pro")] ⟨[], [], 0, 0⟩ (by decide)⟩

/-- C8: the per-record phase yields one result slot per record, the
slot is filled exactly when the create / update / overwrite branch runs
for that record (email present and either no existing contact matches
or the policy is not `skip`), and the aggregated return value is the
non-null filter of those slots — so skipped and email-less records
contribute nothing. -/
theorem results_match_acting_records (environmentId : String) (act : DupAction)
    (em : List (String × Contact)) (km : List (String × Nat)) :
    ∀ (recs : List CSVRecord) (s : Store),
      (∀ p ∈ em, ∃ c ∈ s.contacts, c.id = p.2.id) →
      (processAll environmentId act em km recs s).1.map Option.isSome =
        recs.map (recordActs act em) := by
  intro recs
  induction recs with
  | nil => intro s _; simp [processAll]
  | cons r rs ih =>
    intro s hm
    have hstep : ∀ p ∈ em,
        ∃ c ∈ (processRecord environmentId act em km s r).2.contacts, c.id = p.2.id :=
      fun p hp => processRecord_mem_id (hm p hp)
    simp only [processAll, List.map_cons, ih _ hstep, List.cons.injEq, and_true]
    rw [processRecord, recordActs]
    by_cases he : emailOf r = ""
    · simp [he]
    · have hd : (decide (emailOf r ≠ "")) = true := by simp [he]
      simp only [if_neg he, hd, Bool.true_and]
      cases hget : mapGet em (emailOf r) with
      | none => simp
      | some ec =>
        have hex : ∃ c ∈ s.contacts, c.id = ec.id := hm _ (lookup_mem hget)
        have hfind : (contactById s ec.id).isSome := by
          rw [contactById, List.find?_isSome]
          obtain ⟨c, hc, hci⟩ := hex
          exact ⟨c, hc, by simp [hci]⟩
        cases act with
        | skip => simp
        | update =>
          obtain ⟨c, hcfind⟩ := Option.isSome_iff_exists.mp hfind
          simp [hcfind]
        | overwrite =>
          obtain ⟨c, hcfind⟩ := Option.isSome_iff_exists.mp hfind
          simp [hcfind]

/-- C2: a batch containing a record whose (non-empty) userId value
already exists as a `userId` attribute value in the environment is
rejected with a `ValidationError` and zero writes: the final store is
the initial store, so no contact is created or modified and no
AttributeKeyDefinition is created (the collision check runs before the
attribute-key reconciliation). -/
theorem userId_collision_rejects_batch (csvData : List CSVRecord) (environmentId : String)
    (act : DupAction) (am : List (String × String)) (s : Store)
    (r : CSVRecord) (c : Contact) (a : Nat × String)
    (hval : validateCSVInputs csvData am = true)
    (hr : r ∈ csvData) (hu : userIdOf r ≠ "")
    (hc : c ∈ s.contacts) (ha : a ∈ c.attributes)
    (hres : attrResolves s.attributeKeys environmentId "userId" a = true)
    (hav : a.2 = userIdOf r) :
    ∃ msg, createContactsFromCSV csvData environmentId act am s =
      (Except.error (ImportError.validation msg), s) := by
  have humem : userIdOf r ∈ csvUserIdsOf csvData := by
    rw [csvUserIdsOf, mem_uniq]
    exact List.mem_filter.mpr ⟨List.mem_map_of_mem _ hr, by simpa using hu⟩
  have hne : (csvUserIdsOf csvData).isEmpty = false := by
    cases h : csvUserIdsOf csvData with
    | nil => rw [h] at humem; cases humem
    | cons x t => rfl
  have hcolmem : a.2 ∈ userIdCollisions s environmentId (csvUserIdsOf csvData) := by
    rw [userIdCollisions]
    refine List.mem_map_of_mem _ (List.mem_filter.mpr ⟨List.mem_flatMap.mpr ⟨c, hc, ha⟩, ?_⟩)
    have hcon : (csvUserIdsOf csvData).contains a.2 = true :=
      contains_iff_mem.mpr (hav ▸ humem)
    rw [hres, hcon]
    rfl
  obtain ⟨v, t, hvt⟩ := List.exists_cons_of_ne_nil (List.ne_nil_of_mem hcolmem)
  refine ⟨"Contact with userId " ++ v ++ " already exist for this environment", ?_⟩
  simp [createContactsFromCSV, hval, hne, hvt]

theorem userId_collision_rejects_batch_witness :
    validateCSVInputs [[("email", "b"), ("userId", "u1")]] [] = true ∧
    [("email", "b"), ("userId", "u1")] ∈ [[("email", "b"), ("userId", "u1")]] ∧
    userIdOf [("email", "b"), ("userId", "u1")] ≠ "" ∧
    (⟨5, "e", [(0, "a@x.com"), (1, "u1")]⟩ : Contact) ∈
      (⟨[⟨5, "e", [(0, "a@x.com"), (1, "u1")]⟩],
        [⟨0, "email", "email", "e"⟩, ⟨1, "userId", "userId", "e"⟩], 6, 2⟩ : Store).contacts ∧
    ((1, "u1") : Nat × String) ∈ (⟨5, "e", [(0, "a@x.com"), (1, "u1")]⟩ : Contact).attributes ∧
    attrResolves (⟨[⟨5, "e", [(0, "a@x.com"), (1, "u1")]⟩],
        [⟨0, "email", "email", "e"⟩, ⟨1, "userId", "userId", "e"⟩], 6, 2⟩ : Store).attributeKeys
      "e" "userId" (1, "u1") = true ∧
    ∃ msg, createContactsFromCSV [[("email", "b"), ("userId", "u1")]] "e" DupAction.update []
        ⟨[⟨5, "e", [(0, "a@x.com"), (1, "u1")]⟩],
          [⟨0, "email", "email", "e"⟩, ⟨1, "userId", "userId", "e"⟩], 6, 2⟩ =
      (Except.error (ImportError.validation msg),
        ⟨[⟨5, "e", [(0, "a@x.com"), (1, "u1")]⟩],
          [⟨0, "email", "email", "e"⟩, ⟨1, "userId", "userId", "e"⟩], 6, 2⟩) :=
  ⟨by decide, by decide, by decide, by decide, by decide, by decide,
    userId_collision_rejects_batch [[("email", "b"), ("userId", "u1")]] "e" DupAction.update []
      ⟨[⟨5, "e", [(0, "a@x.com"), (1, "u1")]⟩],
        [⟨0, "email", "email", "e"⟩, ⟨1, "userId", "userId", "e"⟩], 6, 2⟩
      [("email", "b"), ("userId", "u1")] ⟨5, "e", [(0, "a@x.com"), (1, "u1")]⟩ (1, "u1")
      (by decide) (by decide) (by decide) (by decide) (by decide) (by decide) (by decide)⟩

/-- C10: a column name carried only by email-less records still gets an
AttributeKeyDefinition on a successful run: the missing-key computation
scans every record of the batch, including records later dropped for
lacking an email. -/
theorem email_less_record_still_creates_keys (csvData : List CSVRecord)
    (environmentId : String) (act : DupAction) (am : List (String × String)) (s : Store)
    (r : CSVRecord) (k : String) (out : List Contact) (s' : Store)
    (hr : r ∈ csvData) (_he : emailOf r = "") (hk : k ∈ r.map Prod.fst)
    (hrun : createContactsFromCSV csvData environmentId act am s = (Except.ok out, s')) :
    ∃ ak ∈ s'.attributeKeys, ak.key = k ∧ ak.environmentId = environmentId := by
  by_cases hval : validateCSVInputs csvData am = true
  · rw [createContactsFromCSV, hval] at hrun
    simp only [if_true] at hrun
    cases hcol : (if (csvUserIdsOf csvData).isEmpty then []
        else userIdCollisions s environmentId (csvUserIdsOf csvData)) with
    | cons v t => rw [hcol] at hrun; cases hrun
    | nil =>
      rw [hcol] at hrun
      have hs' : s' = (processAll environmentId act (emailMapOf s environmentId csvData)
          (reconciledKeyMap s environmentId csvData) csvData
          (reconciledStore s environmentId csvData)).2 := by
        have := congrArg Prod.snd hrun
        simpa using this.symm
      have hkeys : s'.attributeKeys = (reconciledStore s environmentId csvData).attributeKeys := by
        rw [hs']
        exact (processAll_keys_eq _ _ _ _ csvData _).1
      have hkcsv : k ∈ csvKeysOf csvData := by
        rw [csvKeysOf, mem_uniq]
        exact List.mem_flatMap.mpr ⟨r, hr, hk⟩
      rw [hkeys, reconciledStore]
      by_cases hmiss : k ∈ missingKeysOf s environmentId csvData
      · have hne : (missingKeysOf s environmentId csvData).isEmpty = false := by
          cases h : missingKeysOf s environmentId csvData with
          | nil => rw [h] at hmiss; cases hmiss
          | cons x t => rfl
        rw [hne]
        simp only [Bool.false_eq_true, if_false]
        exact createMissingKeys_exists hmiss
      · have hsome : (mapGet (attributeKeyMap0Of s environmentId) k).isSome = true := by
          by_contra hno
          refine hmiss (List.mem_filter.mpr ⟨hkcsv, ?_⟩)
          simp only [Option.isNone_iff_eq_none]
          cases h : mapGet (attributeKeyMap0Of s environmentId) k with
          | none => rfl
          | some i => rw [h] at hno; simp at hno
        obtain ⟨i, hi⟩ := Option.isSome_iff_exists.mp hsome
        rw [attributeKeyMap0Of] at hi
        rcases mapGet_buildKeyMap_origin hi with ⟨ak, hak, hkk, _⟩ | hinit
        · obtain ⟨hmem, henv⟩ := List.mem_filter.mp hak
          refine ⟨ak, ?_, hkk, by simpa using henv⟩
          split
          · exact hmem
          · exact createMissingKeys_keys_mono hmem
        · simp [mapGet, List.lookup] at hinit
  · rw [createContactsFromCSV, if_neg (by simp [hval])] at hrun
    cases hrun

theorem email_less_record_still_creates_keys_witness :
    [("userId", "u2"), ("plan", "pro")] ∈
      [[("email", "a@x.com"), ("plan", "free")], [("userId", "u2"), ("plan", "pro")]] ∧
    emailOf [("userId", "u2"), ("plan", "pro")] = "" ∧
    "userId" ∈ ([("userId", "u2"), ("plan", "pro")] : CSVRecord).map Prod.fst ∧
    createContactsFromCSV
        [[("email", "a@x.com"), ("plan", "free")], [("userId", "u2"), ("plan", "pro")]]
        "e" DupAction.update [] ⟨[], [], 0, 0⟩ =
      (Except.ok [⟨0, "e", [(0, "a@x.com"), (1, "free")]⟩],
        ⟨[⟨0, "e", [(0, "a@x.com"), (1, "free")]⟩],
          [⟨0, "email", "email", "e"⟩, ⟨1, "plan", "plan", "e"⟩, ⟨2, "userId", "userId", "e"⟩],
          1, 3⟩) ∧
    ∃ ak ∈ (⟨[⟨0, "e", [(0, "a@x.com"), (1, "free")]⟩],
        [⟨0, "email", "email", "e"⟩, ⟨1, "plan", "plan", "e"⟩, ⟨2, "userId", "userId", "e"⟩],
        1, 3⟩ : Store).attributeKeys, ak.key = "userId" ∧ ak.environmentId = "e" :=
  ⟨by decide, by decide, by decide, by decide,
    email_less_record_still_creates_keys
      [[("email", "a@x.com"), ("plan", "free")], [("userId", "u2"), ("plan", "pro")]]
      "e" DupAction.update [] ⟨[], [], 0, 0⟩ [("userId", "u2"), ("plan", "pro")] "userId"
      [⟨0, "e", [(0, "a@x.com"), (1, "free")]⟩]
      ⟨[⟨0, "e", [(0, "a@x.com"), (1, "free")]⟩],
        [⟨0, "email", "email", "e"⟩, ⟨1, "plan", "plan", "e"⟩, ⟨2, "userId", "userId", "e"⟩],
        1, 3⟩
      (by decide) (by decide) (by decide) (by decide)⟩

/-- C6: under policy `skip`, a record whose email matches an existing
contact leaves that contact entirely unchanged in the final store (the
contact row, with all its attribute values, is still present as-is) and
contributes no element to the returned sequence (every returned contact
is freshly created, with an id the matched contact cannot carry). -/
theorem skip_leaves_contact_unchanged (csvData : List CSVRecord) (environmentId : String)
    (am : List (String × String)) (s : Store) (r : CSVRecord) (c0 : Contact)
    (out : List Contact) (s' : Store)
    (hWF : WF s) (_hr : r ∈ csvData) (_he : emailOf r ≠ "")
    (hmatch : mapGet (emailMapOf s environmentId csvData) (emailOf r) = some c0)
    (hrun : createContactsFromCSV csvData environmentId DupAction.skip am s =
      (Except.ok out, s')) :
    contactById s' c0.id = some c0 ∧ ∀ c ∈ out, c.id ≠ c0.id := by
  obtain ⟨hlt, hnd, _⟩ := hWF
  have hc0 : c0 ∈ s.contacts := (emailMapOf_sound hmatch).1
  by_cases hval : validateCSVInputs csvData am = true
  · rw [createContactsFromCSV, hval] at hrun
    simp only [if_true] at hrun
    cases hcol : (if (csvUserIdsOf csvData).isEmpty then []
        else userIdCollisions s environmentId (csvUserIdsOf csvData)) with
    | cons v t => rw [hcol] at hrun; cases hrun
    | nil =>
      rw [hcol] at hrun
      have hout : out = (processAll environmentId DupAction.skip
          (emailMapOf s environmentId csvData) (reconciledKeyMap s environmentId csvData)
          csvData (reconciledStore s environmentId csvData)).1.reduceOption := by
        have := congrArg Prod.fst hrun
        simpa using this.symm
      have hs' : s' = (processAll environmentId DupAction.skip
          (emailMapOf s environmentId csvData) (reconciledKeyMap s environmentId csvData)
          csvData (reconciledStore s environmentId csvData)).2 := by
        have := congrArg Prod.snd hrun
        simpa using this.symm
      have hcs1 : (reconciledStore s environmentId csvData).contacts = s.contacts ∧
          (reconciledStore s environmentId csvData).nextContactId = s.nextContactId := by
        rw [reconciledStore]
        split
        · exact ⟨rfl, rfl⟩
        · exact createMissingKeys_contacts environmentId _ s
      have hfind : contactById (reconciledStore s environmentId csvData) c0.id = some c0 := by
        have h0 : contactById s c0.id = some c0 := contactById_of_mem_nodup hnd hc0
        rw [contactById] at h0 ⊢
        rw [hcs1.1]
        exact h0
      constructor
      · rw [hs']
        exact processAll_skip_contactById _ _ _ csvData _ c0.id c0 hfind
      · intro c hcout
        have hsome : some c ∈ (processAll environmentId DupAction.skip
            (emailMapOf s environmentId csvData) (reconciledKeyMap s environmentId csvData)
            csvData (reconciledStore s environmentId csvData)).1 := by
          rw [hout] at hcout
          exact List.reduceOption_mem_iff.mp hcout
        have hge := (processAll_skip_out_ids environmentId
          (emailMapOf s environmentId csvData) (reconciledKeyMap s environmentId csvData)
          csvData _).2 c hsome
        have hlt0 : c0.id < s.nextContactId := hlt c0 hc0
        rw [hcs1.2] at hge
        omega
  · rw [createContactsFromCSV, if_neg (by simp [hval])] at hrun
    cases hrun

theorem skip_leaves_contact_unchanged_witness :
    WF ⟨[⟨5, "e", [(0, "a@x.com"), (1, "free")]⟩],
      [⟨0, "email", "email", "e"⟩, ⟨1, "plan", "plan", "e"⟩], 6, 2⟩ ∧
    [("email", "a@x.com"), ("city", "NYC")] ∈ [[("email", "a@x.com"), ("city", "NYC")]] ∧
    emailOf [("email", "a@x.com"), ("city", "NYC")] ≠ "" ∧
    mapGet (emailMapOf ⟨[⟨5, "e", [(0, "a@x.com"), (1, "free")]⟩],
        [⟨0, "email", "email", "e"⟩, ⟨1, "plan", "plan", "e"⟩], 6, 2⟩ "e"
        [[("email", "a@x.com"), ("city", "NYC")]])
      (emailOf [("email", "a@x.com"), ("city", "NYC")]) =
      some ⟨5, "e", [(0, "a@x.com"), (1, "free")]⟩ ∧
    createContactsFromCSV [[("email", "a@x.com"), ("city", "NYC")]] "e" DupAction.skip []
        ⟨[⟨5, "e", [(0, "a@x.com"), (1, "free")]⟩],
          [⟨0, "email", "email", "e"⟩, ⟨1, "plan", "plan", "e"⟩], 6, 2⟩ =
      (Except.ok [],
        ⟨[⟨5, "e", [(0, "a@x.com"), (1, "free")]⟩],
          [⟨0, "email", "email", "e"⟩, ⟨1, "plan", "plan", "e"⟩, ⟨2, "city", "city", "e"⟩],
          6, 3⟩) ∧
    (contactById ⟨[⟨5, "e", [(0, "a@x.com"), (1, "free")]⟩],
        [⟨0, "email", "email", "e"⟩, ⟨1, "plan", "plan", "e"⟩, ⟨2, "city", "city", "e"⟩],
        6, 3⟩ (⟨5, "e", [(0, "a@x.com"), (1, "free")]⟩ : Contact).id =
      some ⟨5, "e", [(0, "a@x.com"), (1, "free")]⟩ ∧
      ∀ c ∈ ([] : List Contact), c.id ≠ (⟨5, "e", [(0, "a@x.com"), (1, "free")]⟩ : Contact).id) :=
  ⟨by decide, by decide, by decide, by decide, by decide,
    skip_leaves_contact_unchanged [[("email", "a@x.com"), ("city", "NYC")]] "e" []
      ⟨[⟨5, "e", [(0, "a@x.com"), (1, "free")]⟩],
        [⟨0, "email", "email", "e"⟩, ⟨1, "plan", "plan", "e"⟩], 6, 2⟩
      [("email", "a@x.com"), ("city", "NYC")] ⟨5, "e", [(0, "a@x.com"), (1, "free")]⟩ []
      ⟨[⟨5, "e", [(0, "a@x.com"), (1, "free")]⟩],
        [⟨0, "email", "email", "e"⟩, ⟨1, "plan", "plan", "e"⟩, ⟨2, "city", "city", "e"⟩], 6, 3⟩
      (by decide) (by decide) (by decide) (by decide) (by decide)⟩

/-- C5: running the importer twice with the same records and attribute
map, starting from an environment with an empty attribute-key schema,
leaves exactly the same attribute-key rows after the second run as
after the first: the environment's key names after run one are exactly
the batch's column names, each exactly once (no duplicates), and run
two creates or changes no attribute-key row. -/
theorem key_reconciliation_idempotent (csvData : List CSVRecord) (environmentId : String)
    (act : DupAction) (am : List (String × String)) (s : Store)
    (hval : validateCSVInputs csvData am = true)
    (hempty : envAttributeKeys s environmentId = []) :
    (envAttributeKeys (createContactsFromCSV csvData environmentId act am s).2
        environmentId).map AttrKey.key = csvKeysOf csvData ∧
    (csvKeysOf csvData).Nodup ∧
    (createContactsFromCSV csvData environmentId act am
        (createContactsFromCSV csvData environmentId act am s).2).2.attributeKeys =
      (createContactsFromCSV csvData environmentId act am s).2.attributeKeys := by
  have hnd : (csvKeysOf csvData).Nodup := by
    rw [csvKeysOf]; exact nodup_uniq _
  have hcol0 : (if (csvUserIdsOf csvData).isEmpty = true then []
      else userIdCollisions s environmentId (csvUserIdsOf csvData)) = [] := by
    split
    · rfl
    · exact userIdCollisions_nil_of_no_env_key _ hempty
  have hmap0 : attributeKeyMap0Of s environmentId = [] := by
    rw [attributeKeyMap0Of, hempty]
    rfl
  have hmiss : missingKeysOf s environmentId csvData = csvKeysOf csvData := by
    rw [missingKeysOf, hmap0, List.filter_eq_self]
    intro k _
    rfl
  have hkeysrun1 : (createContactsFromCSV csvData environmentId act am s).2.attributeKeys =
      (reconciledStore s environmentId csvData).attributeKeys := by
    rw [createContactsFromCSV, hval]
    simp only [if_true]
    rw [hcol0]
    exact (processAll_keys_eq environmentId act (emailMapOf s environmentId csvData)
      (reconciledKeyMap s environmentId csvData) csvData
      (reconciledStore s environmentId csvData)).1
  have hrs : (envAttributeKeys (reconciledStore s environmentId csvData)
      environmentId).map AttrKey.key = csvKeysOf csvData := by
    rw [reconciledStore, hmiss]
    cases hk : csvKeysOf csvData with
    | nil => simp [hempty]
    | cons k t =>
      simp only [List.isEmpty_cons, Bool.false_eq_true, if_false]
      have hdisj : ∀ ak ∈ s.attributeKeys, ak.environmentId = environmentId →
          ak.key ∉ k :: t := by
        intro ak hak henv
        have := List.filter_eq_nil_iff.mp hempty ak hak
        exact absurd (by simp [henv]) this
      have := createMissingKeys_env_key_names environmentId (k :: t) s (hk ▸ hnd) hdisj
      rw [this, hempty]
      rfl
  have h1 : (envAttributeKeys (createContactsFromCSV csvData environmentId act am s).2
      environmentId).map AttrKey.key = csvKeysOf csvData := by
    rw [envAttributeKeys, hkeysrun1, ← envAttributeKeys]
    exact hrs
  have hcomplete : ∀ k ∈ csvKeysOf csvData,
      ∃ ak ∈ (createContactsFromCSV csvData environmentId act am s).2.attributeKeys,
        ak.key = k ∧ ak.environmentId = environmentId := by
    intro k hk
    rw [← h1] at hk
    obtain ⟨ak, hakmem, hakkey⟩ := List.mem_map.mp hk
    rw [envAttributeKeys] at hakmem
    have hsplit := List.mem_filter.mp hakmem
    exact ⟨ak, hsplit.1, hakkey, by simpa using hsplit.2⟩
  exact ⟨h1, hnd, createContactsFromCSV_keys_stable _ _ _ _ _ hcomplete⟩

theorem key_reconciliation_idempotent_witness :
    validateCSVInputs [[("email", "a"), ("plan", "x")]] [] = true ∧
    envAttributeKeys (⟨[], [], 0, 0⟩ : Store) "e" = [] ∧
    ((envAttributeKeys (createContactsFromCSV [[("email", "a"), ("plan", "x")]] "e"
          DupAction.update [] ⟨[], [], 0, 0⟩).2 "e").map AttrKey.key =
        csvKeysOf [[("email", "a"), ("plan", "x")]] ∧
      (csvKeysOf [[("email", "a"), ("plan", "x")]]).Nodup ∧
      (createContactsFromCSV [[("email", "a"), ("plan", "x")]] "e" DupAction.update []
          (createContactsFromCSV [[("email", "a"), ("plan", "x")]] "e" DupAction.update []
            ⟨[], [], 0, 0⟩).2).2.attributeKeys =
        (createContactsFromCSV [[("email", "a"), ("plan", "x")]] "e" DupAction.update []
          ⟨[], [], 0, 0⟩).2.attributeKeys) :=
  ⟨by decide, by decide,
    key_reconciliation_idempotent [[("email", "a"), ("plan", "x")]] "e" DupAction.update []
      ⟨[], [], 0, 0⟩ (by decide) (by decide)⟩

theorem results_match_acting_records_witness :
    (∀ p ∈ [("a", (⟨7, "e", [(0, "a")]⟩ : Contact))],
      ∃ c ∈ (⟨[⟨7, "e", [(0, "a")]⟩], [⟨0, "email", "email", "e"⟩], 8, 1⟩ : Store).contacts,
        c.id = p.2.id) ∧
    (processAll "e" DupAction.skip [("a", ⟨7, "e", [(0, "a")]⟩)] [("email", 0)]
        [[("email", "a")], [("email", "b")], [("x", "y")]]
        ⟨[⟨7, "e", [(0, "a")]⟩], [⟨0, "email", "email", "e"⟩], 8, 1⟩).1.map Option.isSome =
      [[("email", "a")], [("email", "b")], [("x", "y")]].map
        (recordActs DupAction.skip [("a", ⟨7, "e", [(0, "a")]⟩)]) :=
  ⟨by decide,
    results_match_acting_records "e" DupAction.skip [("a", ⟨7, "e", [(0, "a")]⟩)] [("email", 0)]
      [[("email", "a")], [("email", "b")], [("x", "y")]]
      ⟨[⟨7, "e", [(0, "a")]⟩], [⟨0, "email", "email", "e"⟩], 8, 1⟩ (by decide)⟩

/-- C3: under policy `overwrite`, for a record whose email matches an
existing contact (and that is the only record carrying this email),
the import deletes all the contact's existing attributes and creates one
attribute per record column, so in the final store the contact's
attribute set (queried by key name) is exactly the record's column set
— no attribute from before the import survives unless its column is in
the record. -/
theorem overwrite_replaces_attributes (csvData : List CSVRecord) (environmentId : String)
    (am : List (String × String)) (s : Store) (pre post : List CSVRecord) (r : CSVRecord)
    (c0 : Contact) (out : List Contact) (s' : Store)
    (hWF : WF s)
    (hsplit : csvData = pre ++ r :: post)
    (he : emailOf r ≠ "")
    (hmatch : mapGet (emailMapOf s environmentId csvData) (emailOf r) = some c0)
    (honly : ∀ r' ∈ pre ++ post, emailOf r' ≠ emailOf r)
    (hrun : createContactsFromCSV csvData environmentId DupAction.overwrite am s =
      (Except.ok out, s')) :
    ∃ c' ∈ s'.contacts, c'.id = c0.id ∧
      ∀ k v, attrValue s'.attributeKeys c' k = some v ↔ (k, v) ∈ r := by
  obtain ⟨hval, hout, hs'⟩ := createContactsFromCSV_ok_elim hrun
  set em := emailMapOf s environmentId csvData with hem
  set km := reconciledKeyMap s environmentId csvData with hkm
  set s1 := reconciledStore s environmentId csvData with hs1
  set c' : Contact := { c0 with attributes := recordEntries km r } with hc'
  obtain ⟨hc0mem, hc0env, _⟩ := emailMapOf_sound hmatch
  obtain ⟨hlt, hnd, -, -, -, -, -⟩ := id hWF
  have hcs1 := reconciledStore_contacts s environmentId csvData
  rw [← hs1] at hcs1
  have hid0 : c0.id < s1.nextContactId := by
    rw [hcs1.2]
    exact hlt c0 hc0mem
  have hfind1 : contactById s1 c0.id = some c0 := by
    have h0 : contactById s c0.id = some c0 := contactById_of_mem_nodup hnd hc0mem
    rw [contactById] at h0 ⊢
    rw [hcs1.1]
    exact h0
  have hkeys' : s'.attributeKeys = s1.attributeKeys := by
    rw [hs']
    exact (processAll_keys_eq _ _ _ _ _ _).1
  rw [hsplit] at hs'
  have hpreOK : ∀ r' ∈ pre, emailOf r' = "" ∨
      ∀ c', mapGet em (emailOf r') = some c' → c'.id ≠ c0.id := by
    intro r' hr'
    by_cases he' : emailOf r' = ""
    · exact Or.inl he'
    · exact Or.inr fun c' hc' =>
        emailMapOf_id_inj hnd hc' hmatch (honly r' (List.mem_append_left _ hr'))
  have hpre := @processAll_untouched environmentId DupAction.overwrite em km pre
    s1 c0.id hid0 hpreOK
  set sA := (processAll environmentId DupAction.overwrite em km pre s1).2 with hsA
  have hfindA : contactById sA c0.id = some c0 := hpre.1.trans hfind1
  have hstep : processRecord environmentId DupAction.overwrite em km sA r =
      (some c', replaceContact sA c') := by
    rw [processRecord, if_neg he, hmatch]
    simp only [hfindA]
  have hs'2 : s' = (processAll environmentId DupAction.overwrite em km post
      (replaceContact sA c')).2 := by
    rw [hs', processAll_append]
    simp only [processAll, ← hsA, hstep]
  have hfindB : contactById (replaceContact sA c') c0.id = some c' :=
    contactById_replaceContact_eq hfindA
  have hidB : c0.id < (replaceContact sA c').nextContactId :=
    Nat.lt_of_lt_of_le hid0 hpre.2
  have hpostOK : ∀ r' ∈ post, emailOf r' = "" ∨
      ∀ c', mapGet em (emailOf r') = some c' → c'.id ≠ c0.id := by
    intro r' hr'
    by_cases he' : emailOf r' = ""
    · exact Or.inl he'
    · exact Or.inr fun c'' hc'' =>
        emailMapOf_id_inj hnd hc'' hmatch (honly r' (List.mem_append_right _ hr'))
  have hpost := @processAll_untouched environmentId DupAction.overwrite em km post
    (replaceContact sA c') c0.id hidB hpostOK
  have hfinal : contactById s' c0.id = some c' := by
    rw [hs'2]
    exact hpost.1.trans hfindB
  refine ⟨c', List.mem_of_find?_eq_some hfinal, rfl, ?_⟩
  intro k v
  rw [attrValue, hkeys']
  have hrmem : r ∈ csvData := by
    rw [hsplit]
    exact List.mem_append_right _ (List.mem_cons_self r post)
  have hcomp : ∀ e ∈ r, ∃ kid ak, mapGet km e.1 = some kid ∧
      keyById s1.attributeKeys kid = some ak ∧
      ak.key = e.1 ∧ ak.environmentId = environmentId := by
    intro e he'
    exact reconciledKeyMap_complete hWF e.1 (record_col_mem_csvKeys hrmem he')
  have henvc : (c' : Contact).environmentId = environmentId := hc0env
  rw [henvc]
  exact recordEntries_attrValue r hcomp (validate_record_nodup hval hrmem) k v

theorem overwrite_replaces_attributes_witness :
    WF ⟨[⟨5, "e", [(0, "a@x.com"), (1, "free")]⟩],
      [⟨0, "email", "email", "e"⟩, ⟨1, "plan", "plan", "e"⟩], 6, 2⟩ ∧
    ([[("email", "a@x.com"), ("city", "NYC")]] : List CSVRecord) =
      [] ++ [("email", "a@x.com"), ("city", "NYC")] :: [] ∧
    emailOf [("email", "a@x.com"), ("city", "NYC")] ≠ "" ∧
    mapGet (emailMapOf ⟨[⟨5, "e", [(0, "a@x.com"), (1, "free")]⟩],
        [⟨0, "email", "email", "e"⟩, ⟨1, "plan", "plan", "e"⟩], 6, 2⟩ "e"
        [[("email", "a@x.com"), ("city", "NYC")]])
      (emailOf [("email", "a@x.com"), ("city", "NYC")]) =
      some ⟨5, "e", [(0, "a@x.com"), (1, "free")]⟩ ∧
    createContactsFromCSV [[("email", "a@x.com"), ("city", "NYC")]] "e" DupAction.overwrite []
        ⟨[⟨5, "e", [(0, "a@x.com"), (1, "free")]⟩],
          [⟨0, "email", "email", "e"⟩, ⟨1, "plan", "plan", "e"⟩], 6, 2⟩ =
      (Except.ok [⟨5, "e", [(0, "a@x.com"), (2, "NYC")]⟩],
        ⟨[⟨5, "e", [(0, "a@x.com"), (2, "NYC")]⟩],
          [⟨0, "email", "email", "e"⟩, ⟨1, "plan", "plan", "e"⟩, ⟨2, "city", "city", "e"⟩],
          6, 3⟩) ∧
    ∃ c' ∈ (⟨[⟨5, "e", [(0, "a@x.com"), (2, "NYC")]⟩],
        [⟨0, "email", "email", "e"⟩, ⟨1, "plan", "plan", "e"⟩, ⟨2, "city", "city", "e"⟩],
        6, 3⟩ : Store).contacts,
      c'.id = (⟨5, "e", [(0, "a@x.com"), (1, "free")]⟩ : Contact).id ∧
      ∀ k v, attrValue (⟨[⟨5, "e", [(0, "a@x.com"), (2, "NYC")]⟩],
          [⟨0, "email", "email", "e"⟩, ⟨1, "plan", "plan", "e"⟩, ⟨2, "city", "city", "e"⟩],
          6, 3⟩ : Store).attributeKeys c' k = some v ↔
        (k, v) ∈ ([("email", "a@x.com"), ("city", "NYC")] : CSVRecord) :=
  ⟨by decide, by decide, by decide, by decide, by decide,
    overwrite_replaces_attributes [[("email", "a@x.com"), ("city", "NYC")]] "e" []
      ⟨[⟨5, "e", [(0, "a@x.com"), (1, "free")]⟩],
        [⟨0, "email", "email", "e"⟩, ⟨1, "plan", "plan", "e"⟩], 6, 2⟩
      [] [] [("email", "a@x.com"), ("city", "NYC")] ⟨5, "e", [(0, "a@x.com"), (1, "free")]⟩
      [⟨5, "e", [(0, "a@x.com"), (2, "NYC")]⟩]
      ⟨[⟨5, "e", [(0, "a@x.com"), (2, "NYC")]⟩],
        [⟨0, "email", "email", "e"⟩, ⟨1, "plan", "plan", "e"⟩, ⟨2, "city", "city", "e"⟩], 6, 3⟩
      (by decide) (by decide) (by decide) (by decide) (by decide) (by decide)⟩

/-- C4: under policy `update`, for a record whose email matches an
existing contact (and that is the only record carrying this email),
the import upserts each record column onto that contact — when the
(contact, key) pair exists its value is overwritten, otherwise it is
created — and every attribute of the contact whose key is not a record
column keeps exactly its prior value. -/
theorem update_upserts_attributes (csvData : List CSVRecord) (environmentId : String)
    (am : List (String × String)) (s : Store) (pre post : List CSVRecord) (r : CSVRecord)
    (c0 : Contact) (out : List Contact) (s' : Store)
    (hWF : WF s)
    (hsplit : csvData = pre ++ r :: post)
    (he : emailOf r ≠ "")
    (hmatch : mapGet (emailMapOf s environmentId csvData) (emailOf r) = some c0)
    (honly : ∀ r' ∈ pre ++ post, emailOf r' ≠ emailOf r)
    (hrun : createContactsFromCSV csvData environmentId DupAction.update am s =
      (Except.ok out, s')) :
    ∃ c' ∈ s'.contacts, c'.id = c0.id ∧
      (∀ k v, (k, v) ∈ r → attrValue s'.attributeKeys c' k = some v) ∧
      (∀ k, k ∉ r.map Prod.fst →
        attrValue s'.attributeKeys c' k = attrValue s.attributeKeys c0 k) := by
  obtain ⟨hval, hout, hs'⟩ := createContactsFromCSV_ok_elim hrun
  set em := emailMapOf s environmentId csvData with hem
  set km := reconciledKeyMap s environmentId csvData with hkm
  set s1 := reconciledStore s environmentId csvData with hs1
  set c' : Contact := { c0 with attributes := upsertAttrs c0.attributes (recordEntries km r) }
    with hc'
  obtain ⟨hc0mem, hc0env, _⟩ := emailMapOf_sound hmatch
  obtain ⟨hlt, hnd, -, -, -, hattrEx, -⟩ := id hWF
  obtain ⟨-, -, -, hnd1, huniq1, -, -⟩ := id (@reconciledStore_WF s environmentId csvData hWF)
  have hcs1 := reconciledStore_contacts s environmentId csvData
  rw [← hs1] at hcs1
  have hid0 : c0.id < s1.nextContactId := by
    rw [hcs1.2]
    exact hlt c0 hc0mem
  have hfind1 : contactById s1 c0.id = some c0 := by
    have h0 : contactById s c0.id = some c0 := contactById_of_mem_nodup hnd hc0mem
    rw [contactById] at h0 ⊢
    rw [hcs1.1]
    exact h0
  have hkeys' : s'.attributeKeys = s1.attributeKeys := by
    rw [hs']
    exact (processAll_keys_eq _ _ _ _ _ _).1
  rw [hsplit] at hs'
  have hpreOK : ∀ r' ∈ pre, emailOf r' = "" ∨
      ∀ c'', mapGet em (emailOf r') = some c'' → c''.id ≠ c0.id := by
    intro r' hr'
    by_cases he' : emailOf r' = ""
    · exact Or.inl he'
    · exact Or.inr fun c'' hc'' =>
        emailMapOf_id_inj hnd hc'' hmatch (honly r' (List.mem_append_left _ hr'))
  have hpre := @processAll_untouched environmentId DupAction.update em km pre
    s1 c0.id hid0 hpreOK
  set sA := (processAll environmentId DupAction.update em km pre s1).2 with hsA
  have hfindA : contactById sA c0.id = some c0 := hpre.1.trans hfind1
  have hstep : processRecord environmentId DupAction.update em km sA r =
      (some c', replaceContact sA c') := by
    rw [processRecord, if_neg he, hmatch]
    simp only [hfindA]
  have hs'2 : s' = (processAll environmentId DupAction.update em km post
      (replaceContact sA c')).2 := by
    rw [hs', processAll_append]
    simp only [processAll, ← hsA, hstep]
  have hfindB : contactById (replaceContact sA c') c0.id = some c' :=
    contactById_replaceContact_eq hfindA
  have hidB : c0.id < (replaceContact sA c').nextContactId :=
    Nat.lt_of_lt_of_le hid0 hpre.2
  have hpostOK : ∀ r' ∈ post, emailOf r' = "" ∨
      ∀ c'', mapGet em (emailOf r') = some c'' → c''.id ≠ c0.id := by
    intro r' hr'
    by_cases he' : emailOf r' = ""
    · exact Or.inl he'
    · exact Or.inr fun c'' hc'' =>
        emailMapOf_id_inj hnd hc'' hmatch (honly r' (List.mem_append_right _ hr'))
  have hpost := @processAll_untouched environmentId DupAction.update em km post
    (replaceContact sA c') c0.id hidB hpostOK
  have hfinal : contactById s' c0.id = some c' := by
    rw [hs'2]
    exact hpost.1.trans hfindB
  have hrmem : r ∈ csvData := by
    rw [hsplit]
    exact List.mem_append_right _ (List.mem_cons_self r post)
  have hcomp : ∀ e ∈ r, ∃ kid ak, mapGet km e.1 = some kid ∧
      keyById s1.attributeKeys kid = some ak ∧
      ak.key = e.1 ∧ ak.environmentId = environmentId := by
    intro e he'
    exact reconciledKeyMap_complete hWF e.1 (record_col_mem_csvKeys hrmem he')
  have hrnodup : (r.map Prod.fst).Nodup := validate_record_nodup hval hrmem
  have hEnodup : ((recordEntries km r).map Prod.fst).Nodup :=
    recordEntries_kid_nodup r hcomp hrnodup
  have henvc : (c' : Contact).environmentId = environmentId := hc0env
  refine ⟨c', List.mem_of_find?_eq_some hfinal, rfl, ?_, ?_⟩
  · intro k v hkv
    obtain ⟨kid0, ak0, hm0, hkb0, hkey0, henv0⟩ := hcomp (k, v) hkv
    rw [attrValue, hkeys', henvc]
    rw [find?_ext (attrResolves_eq_beq huniq1 hkb0 hkey0 henv0) c'.attributes]
    show lookupKid (upsertAttrs c0.attributes (recordEntries km r)) kid0 = some v
    rw [lookupKid_upsertAttrs _ _ _ hEnodup,
      recordEntries_lookupKid r hcomp hrnodup k v kid0 hkv hm0]
  · intro k hknot
    simp only [attrValue]
    rw [hkeys', henvc]
    by_cases hex : ∃ ak ∈ s1.attributeKeys, ak.key = k ∧ ak.environmentId = environmentId
    · obtain ⟨ak0, hak0, hkey0, henv0⟩ := hex
      have hkb0 : keyById s1.attributeKeys ak0.id = some ak0 := keyById_of_mem_nodup hnd1 hak0
      rw [find?_ext (attrResolves_eq_beq huniq1 hkb0 hkey0 henv0) c'.attributes]
      have hlhs : (c'.attributes.find? (fun a => a.1 == ak0.id)).map Prod.snd =
          lookupKid c0.attributes ak0.id := by
        show lookupKid (upsertAttrs c0.attributes (recordEntries km r)) ak0.id =
          lookupKid c0.attributes ak0.id
        rw [lookupKid_upsertAttrs _ _ _ hEnodup,
          recordEntries_lookupKid_none r hcomp hknot hkb0 hkey0]
      rw [hlhs, lookupKid, ← find?_ext (attrResolves_eq_beq huniq1 hkb0 hkey0 henv0)
        c0.attributes]
      obtain ⟨tail, htail⟩ := reconciledStore_extends s environmentId csvData
      rw [← hs1] at htail
      have hex0 : ∀ a ∈ c0.attributes, ∃ ak ∈ s.attributeKeys, ak.id = a.1 :=
        fun a ha => hattrEx c0 hc0mem a ha
      rw [htail, find?_attrResolves_stable tail environmentId k hex0]
    · have hnone1 : ∀ ak ∈ s1.attributeKeys, ¬(ak.key = k ∧ ak.environmentId = environmentId) :=
        fun ak hak hcon => hex ⟨ak, hak, hcon.1, hcon.2⟩
      have h1 : c'.attributes.find? (attrResolves s1.attributeKeys environmentId k) = none :=
        attrValue_none_of_no_key hnone1 _
      have h2 : c0.attributes.find? (attrResolves s.attributeKeys environmentId k) = none := by
        refine attrValue_none_of_no_key ?_ _
        intro ak hak hcon
        obtain ⟨tail, htail⟩ := reconciledStore_extends s environmentId csvData
        rw [← hs1] at htail
        refine hex ⟨ak, ?_, hcon.1, hcon.2⟩
        rw [htail]
        exact List.mem_append_left _ hak
      rw [h1, h2]

theorem update_upserts_attributes_witness :
    WF ⟨[⟨5, "e", [(0, "a@x.com"), (1, "free")]⟩],
      [⟨0, "email", "email", "e"⟩, ⟨1, "plan", "plan", "e"⟩], 6, 2⟩ ∧
    ([[("email", "a@x.com"), ("city", "NYC")]] : List CSVRecord) =
      [] ++ [("email", "a@x.com"), ("city", "NYC")] :: [] ∧
    emailOf [("email", "a@x.com"), ("city", "NYC")] ≠ "" ∧
    mapGet (emailMapOf ⟨[⟨5, "e", [(0, "a@x.com"), (1, "free")]⟩],
        [⟨0, "email", "email", "e"⟩, ⟨1, "plan", "plan", "e"⟩], 6, 2⟩ "e"
        [[("email", "a@x.com"), ("city", "NYC")]])
      (emailOf [("email", "a@x.com"), ("city", "NYC")]) =
      some ⟨5, "e", [(0, "a@x.com"), (1, "free")]⟩ ∧
    createContactsFromCSV [[("email", "a@x.com"), ("city", "NYC")]] "e" DupAction.update []
        ⟨[⟨5, "e", [(0, "a@x.com"), (1, "free")]⟩],
          [⟨0, "email", "email", "e"⟩, ⟨1, "plan", "plan", "e"⟩], 6, 2⟩ =
      (Except.ok [⟨5, "e", [(0, "a@x.com"), (1, "free"), (2, "NYC")]⟩],
        ⟨[⟨5, "e", [(0, "a@x.com"), (1, "free"), (2, "NYC")]⟩],
          [⟨0, "email", "email", "e"⟩, ⟨1, "plan", "plan", "e"⟩, ⟨2, "city", "city", "e"⟩],
          6, 3⟩) ∧
    ∃ c' ∈ (⟨[⟨5, "e", [(0, "a@x.com"), (1, "free"), (2, "NYC")]⟩],
        [⟨0, "email", "email", "e"⟩, ⟨1, "plan", "plan", "e"⟩, ⟨2, "city", "city", "e"⟩],
        6, 3⟩ : Store).contacts,
      c'.id = (⟨5, "e", [(0, "a@x.com"), (1, "free")]⟩ : Contact).id ∧
      (∀ k v, (k, v) ∈ ([("email", "a@x.com"), ("city", "NYC")] : CSVRecord) →
        attrValue (⟨[⟨5, "e", [(0, "a@x.com"), (1, "free"), (2, "NYC")]⟩],
          [⟨0, "email", "email", "e"⟩, ⟨1, "plan", "plan", "e"⟩, ⟨2, "city", "city", "e"⟩],
          6, 3⟩ : Store).attributeKeys c' k = some v) ∧
      (∀ k, k ∉ ([("email", "a@x.com"), ("city", "NYC")] : CSVRecord).map Prod.fst →
        attrValue (⟨[⟨5, "e", [(0, "a@x.com"), (1, "free"), (2, "NYC")]⟩],
          [⟨0, "email", "email", "e"⟩, ⟨1, "plan", "plan", "e"⟩, ⟨2, "city", "city", "e"⟩],
          6, 3⟩ : Store).attributeKeys c' k =
        attrValue (⟨[⟨5, "e", [(0, "a@x.com"), (1, "free")]⟩],
          [⟨0, "email", "email", "e"⟩, ⟨1, "plan", "plan", "e"⟩], 6, 2⟩ : Store).attributeKeys
          ⟨5, "e", [(0, "a@x.com"), (1, "free")]⟩ k) :=
  ⟨by decide, by decide, by decide, by decide, by decide,
    update_upserts_attributes [[("email", "a@x.com"), ("city", "NYC")]] "e" []
      ⟨[⟨5, "e", [(0, "a@x.com"), (1, "free")]⟩],
        [⟨0, "email", "email", "e"⟩, ⟨1, "plan", "plan", "e"⟩], 6, 2⟩
      [] [] [("email", "a@x.com"), ("city", "NYC")] ⟨5, "e", [(0, "a@x.com"), (1, "free")]⟩
      [⟨5, "e", [(0, "a@x.com"), (1, "free"), (2, "NYC")]⟩]
      ⟨[⟨5, "e", [(0, "a@x.com"), (1, "free"), (2, "NYC")]⟩],
        [⟨0, "email", "email", "e"⟩, ⟨1, "plan", "plan", "e"⟩, ⟨2, "city", "city", "e"⟩], 6, 3⟩
      (by decide) (by decide) (by decide) (by decide) (by decide) (by decide)⟩

/-- C1 (counterexample to the claim as stated): the collision check only
compares incoming userIds against attribute rows already in the store,
never against the other records of the same batch, so a batch whose two
records carry distinct emails but the same userId imports successfully
from a store satisfying the uniqueness invariant and produces two
distinct contacts of the environment with the same non-empty userId. -/
theorem userId_uniqueness_counterexample :
    WF (⟨[], [], 0, 0⟩ : Store) ∧
    userIdUnique (⟨[], [], 0, 0⟩ : Store) "env1" ∧
    validateCSVInputs
      [[("email", "a"), ("userId", "u")], [("email", "b"), ("userId", "u")]] [] = true ∧
    (createContactsFromCSV
        [[("email", "a"), ("userId", "u")], [("email", "b"), ("userId", "u")]]
        "env1" DupAction.skip [] ⟨[], [], 0, 0⟩).1 =
      Except.ok
        [⟨0, "env1", [(0, "a"), (1, "u")]⟩, ⟨1, "env1", [(0, "b"), (1, "u")]⟩] ∧
    ¬ userIdUnique (createContactsFromCSV
        [[("email", "a"), ("userId", "u")], [("email", "b"), ("userId", "u")]]
        "env1" DupAction.skip [] ⟨[], [], 0, 0⟩).2 "env1" := by
  decide

/-- C1 (amended): for a well-formed store satisfying the per-environment
userId uniqueness invariant, a successful `createContactsFromCSV` run
preserves the invariant provided no two records of the batch carry the
same non-empty userId value (without that proviso the claim is false:
two records with distinct emails and the same userId are both written,
see the counterexample). -/
theorem userId_uniqueness_preserved (csvData : List CSVRecord) (environmentId : String)
    (act : DupAction) (am : List (String × String)) (s : Store) (out : List Contact)
    (s' : Store)
    (hWF : WF s)
    (hU : userIdUnique s environmentId)
    (hndU : ((csvData.map userIdOf).filter (fun u => u ≠ "")).Nodup)
    (hrun : createContactsFromCSV csvData environmentId act am s = (Except.ok out, s')) :
    userIdUnique s' environmentId := by
  obtain ⟨hval, -, hs'⟩ := createContactsFromCSV_ok_elim hrun
  have hcol : (if (csvUserIdsOf csvData).isEmpty then []
      else userIdCollisions s environmentId (csvUserIdsOf csvData)) = [] := by
    rw [createContactsFromCSV, hval] at hrun
    simp only [if_true] at hrun
    cases hc : (if (csvUserIdsOf csvData).isEmpty then []
        else userIdCollisions s environmentId (csvUserIdsOf csvData)) with
    | nil => rfl
    | cons v t => rw [hc] at hrun; cases hrun
  have h2s := no_collisions_userId_fresh hcol
  obtain ⟨tail, htail⟩ := reconciledStore_keys_extends s environmentId csvData
  obtain ⟨h3s, -, -, -, -, hexs, -⟩ := id hWF
  obtain ⟨-, -, -, hnd1, huniq1, -, -⟩ := id (@reconciledStore_WF s environmentId csvData hWF)
  have hcontacts := (reconciledStore_contacts s environmentId csvData).1
  have hnext := (reconciledStore_contacts s environmentId csvData).2
  have hkeq : ∀ c ∈ s.contacts,
      attrValue (reconciledStore s environmentId csvData).attributeKeys c "userId" =
        attrValue s.attributeKeys c "userId" := by
    intro c hc
    rw [htail]
    exact attrValue_append_stable tail (hexs c hc) "userId"
  have hfin := processAll_userId_inv environmentId act
    (emailMapOf s environmentId csvData) (reconciledKeyMap s environmentId csvData)
    (reconciledStore s environmentId csvData).attributeKeys hnd1 huniq1 csvData
    (reconciledStore s environmentId csvData)
    (fun r hr e he => reconciledKeyMap_complete hWF e.1 (record_col_mem_csvKeys hr he))
    (fun r hr => validate_record_nodup hval hr)
    hndU
    (by rw [hcontacts, hnext]; exact h3s)
    (by
      rw [hcontacts]
      intro c1 hc1 c2 hc2 henv1 henv2 hne heqv
      rw [hkeq c1 hc1] at heqv ⊢
      rw [hkeq c2 hc2] at heqv
      exact hU c1 hc1 c2 hc2 henv1 henv2 hne heqv)
    (by
      rw [hcontacts]
      intro c hc henv u hu hune
      rw [hkeq c hc] at hu
      exact h2s c hc henv u hu hune)
  rw [userIdUnique, hs']
  have hkeys := (processAll_keys_eq environmentId act
    (emailMapOf s environmentId csvData) (reconciledKeyMap s environmentId csvData)
    csvData (reconciledStore s environmentId csvData)).1
  rw [hkeys]
  exact hfin

theorem userId_uniqueness_preserved_witness :
    WF (⟨[], [], 0, 0⟩ : Store) ∧
    userIdUnique (⟨[], [], 0, 0⟩ : Store) "env1" ∧
    ((([[("email", "a"), ("userId", "u1")], [("email", "b"), ("userId", "u2")]] :
        List CSVRecord).map userIdOf).filter (fun u => u ≠ "")).Nodup ∧
    userIdUnique
      (⟨[⟨0, "env1", [(0, "a"), (1, "u1")]⟩, ⟨1, "env1", [(0, "b"), (1, "u2")]⟩],
        [⟨0, "email", "email", "env1"⟩, ⟨1, "userId", "userId", "env1"⟩], 2, 2⟩ : Store)
      "env1" :=
  ⟨by decide, by decide, by decide,
    userId_uniqueness_preserved
      [[("email", "a"), ("userId", "u1")], [("email", "b"), ("userId", "u2")]]
      "env1" DupAction.skip [] ⟨[], [], 0, 0⟩
      [⟨0, "env1", [(0, "a"), (1, "u1")]⟩, ⟨1, "env1", [(0, "b"), (1, "u2")]⟩]
      ⟨[⟨0, "env1", [(0, "a"), (1, "u1")]⟩, ⟨1, "env1", [(0, "b"), (1, "u2")]⟩],
        [⟨0, "email", "email", "env1"⟩, ⟨1, "userId", "userId", "env1"⟩], 2, 2⟩
      (by decide) (by decide) (by decide) (by decide)⟩

end Fb
